import Mathlib

/-!
# Sequential model of `trading::LockFreeOrderBook`

A shallow embedding of `include/order_book/order_book.hpp` and
`src/order_book/order_book.cpp`.  Every public operation is modelled as a
pure function on the book state, i.e. the behaviour of one call running
with no other call in flight.

* `Price` and `Quantity` are `int64_t`: they are `Int`s here, and every
  atomic `fetch_add` / `fetch_sub` wraps with `wrap64`.
* `OrderId` is `uint64_t`: a `Nat`, only ever compared for equality.
* `size_t` is taken to be 64 bits wide, so that in `price % MAX_PRICE_LEVELS`
  the signed price is converted to `uint64_t` before the remainder is taken.
* The intrusive singly linked list hanging off `PriceLevel::head` is the
  `List Order` of its nodes, head first.
* The two `std::array<PriceLevel, MAX_PRICE_LEVELS>` are functions from the
  slot number; only slots below `MAX_PRICE_LEVELS` are ever read or written.
-/

namespace trading

/-! ## Data model -/

/-- The constant `LockFreeOrderBook::MAX_PRICE_LEVELS`. -/
def MAX_PRICE_LEVELS : Nat := 10000

/-- The value `std::numeric_limits<Price>::min()`. -/
def INT64_MIN : Int := -9223372036854775808

/-- The value `std::numeric_limits<Price>::max()`. -/
def INT64_MAX : Int := 9223372036854775807

/-- The number of values of a 64-bit word, `2 ^ 64`. -/
def TWO64 : Int := 18446744073709551616

/-- Two's complement reduction of an integer to the `int64_t` range. -/
def wrap64 (x : Int) : Int := (x + 9223372036854775808) % TWO64 - 9223372036854775808

/-- The fields of `struct Order`; `next` is the tail of the list holding it. -/
structure Order where
  id : Nat
  price : Int
  quantity : Int
  is_buy : Bool
deriving DecidableEq, Repr

/-- The fields of `struct PriceLevel`: the list reachable from `head`, and
`total_quantity`. -/
structure PriceLevel where
  head : List Order
  total_quantity : Int
deriving DecidableEq, Repr

/-- The data members of `LockFreeOrderBook`. -/
structure LockFreeOrderBook where
  buy_levels_ : Nat → PriceLevel
  sell_levels_ : Nat → PriceLevel
  best_bid_ : Int
  best_ask_ : Int

/-- The book built by the constructor `LockFreeOrderBook::LockFreeOrderBook`. -/
def LockFreeOrderBook.fresh : LockFreeOrderBook :=
  { buy_levels_ := fun _ => ⟨[], 0⟩
    sell_levels_ := fun _ => ⟨[], 0⟩
    best_bid_ := INT64_MIN
    best_ask_ := INT64_MAX }

/-- Assignment to one element of a level array. -/
def setLevel (lv : Nat → PriceLevel) (i : Nat) (l : PriceLevel) : Nat → PriceLevel :=
  fun j => if j = i then l else lv j

/-- The array selected by `is_buy ? buy_levels_ : sell_levels_`. -/
def LockFreeOrderBook.levels (b : LockFreeOrderBook) (is_buy : Bool) : Nat → PriceLevel :=
  if is_buy then b.buy_levels_ else b.sell_levels_

/-! ## Operations -/

/-- The function `LockFreeOrderBook::getPriceLevelIndex`: the price is
converted to `uint64_t` and reduced modulo `MAX_PRICE_LEVELS`. -/
def getPriceLevelIndex (price : Int) : Nat :=
  (price % TWO64).toNat % MAX_PRICE_LEVELS

/-- The function `LockFreeOrderBook::getBestBid`. -/
def getBestBid (b : LockFreeOrderBook) : Int := b.best_bid_

/-- The function `LockFreeOrderBook::getBestAsk`. -/
def getBestAsk (b : LockFreeOrderBook) : Int := b.best_ask_

/-- The function `LockFreeOrderBook::getQuantityAtPrice`. -/
def getQuantityAtPrice (b : LockFreeOrderBook) (price : Int) (is_buy : Bool) : Int :=
  (b.levels is_buy (getPriceLevelIndex price)).total_quantity

/-- The list push and the `fetch_add` of `addOrder` on the chosen array. -/
def pushOrder (lv : Nat → PriceLevel) (level_idx : Nat) (new_order : Order) :
    Nat → PriceLevel :=
  setLevel lv level_idx
    ⟨new_order :: (lv level_idx).head,
      wrap64 ((lv level_idx).total_quantity + new_order.quantity)⟩

/-- The function `LockFreeOrderBook::addOrder`: the new book and the
returned flag. -/
def addOrder (b : LockFreeOrderBook) (id : Nat) (price quantity : Int) (is_buy : Bool) :
    LockFreeOrderBook × Bool :=
  if quantity ≤ 0 then (b, false)
  else
    let level_idx := getPriceLevelIndex price
    let new_order : Order := ⟨id, price, quantity, is_buy⟩
    if is_buy then
      ({ b with
          buy_levels_ := pushOrder b.buy_levels_ level_idx new_order
          best_bid_ := if price > b.best_bid_ then price else b.best_bid_ }, true)
    else
      ({ b with
          sell_levels_ := pushOrder b.sell_levels_ level_idx new_order
          best_ask_ := if price < b.best_ask_ then price else b.best_ask_ }, true)

/-- One step of the first loop of `updateBestPrices` on level `l`. -/
def bidStep (best_bid : Int) (l : PriceLevel) : Int :=
  if l.total_quantity > 0 then
    match l.head with
    | order :: _ => if order.price > best_bid then order.price else best_bid
    | [] => best_bid
  else best_bid

/-- One step of the second loop of `updateBestPrices` on level `l`. -/
def askStep (best_ask : Int) (l : PriceLevel) : Int :=
  if l.total_quantity > 0 then
    match l.head with
    | order :: _ => if order.price < best_ask then order.price else best_ask
    | [] => best_ask
  else best_ask

/-- The function `LockFreeOrderBook::updateBestPrices`. -/
def updateBestPrices (b : LockFreeOrderBook) : LockFreeOrderBook :=
  { b with
    best_bid_ :=
      (List.range MAX_PRICE_LEVELS).foldl (fun best i => bidStep best (b.buy_levels_ i))
        INT64_MIN
    best_ask_ :=
      (List.range MAX_PRICE_LEVELS).foldl (fun best i => askStep best (b.sell_levels_ i))
        INT64_MAX }

/-- The `while (current)` loop of `cancelOrder` on one list: the first node
carrying `id` and the list with that node unlinked. -/
def unlink (id : Nat) : List Order → Option (Order × List Order)
  | [] => none
  | current :: next =>
    if current.id = id then some (current, next)
    else
      match unlink id next with
      | some (found, rest) => some (found, current :: rest)
      | none => none

/-- The `for (i ...)` loop of `cancelOrder` on one array, over the slots
`slots`: the array after the unlink and the `fetch_sub`, if `id` was found. -/
def cancelInLevels (lv : Nat → PriceLevel) (id : Nat) : List Nat → Option (Nat → PriceLevel)
  | [] => none
  | i :: slots =>
    match unlink id (lv i).head with
    | some (found, rest) =>
      some (setLevel lv i ⟨rest, wrap64 ((lv i).total_quantity - found.quantity)⟩)
    | none => cancelInLevels lv id slots

/-- The function `LockFreeOrderBook::cancelOrder`. -/
def cancelOrder (b : LockFreeOrderBook) (id : Nat) : LockFreeOrderBook × Bool :=
  match cancelInLevels b.buy_levels_ id (List.range MAX_PRICE_LEVELS) with
  | some lv => (updateBestPrices { b with buy_levels_ := lv }, true)
  | none =>
    match cancelInLevels b.sell_levels_ id (List.range MAX_PRICE_LEVELS) with
    | some lv => (updateBestPrices { b with sell_levels_ := lv }, true)
    | none => (b, false)

/-- The `while (current)` loop of `modifyOrder` on one list: the old
quantity of the first node carrying `id` and the list with that node's
quantity overwritten. -/
def setQuantity (id : Nat) (new_quantity : Int) : List Order → Option (Int × List Order)
  | [] => none
  | current :: next =>
    if current.id = id then
      some (current.quantity, { current with quantity := new_quantity } :: next)
    else
      match setQuantity id new_quantity next with
      | some (old_quantity, rest) => some (old_quantity, current :: rest)
      | none => none

/-- The `for (i ...)` loop of `modifyOrder` on one array, over the slots
`slots`. -/
def modifyInLevels (lv : Nat → PriceLevel) (id : Nat) (new_quantity : Int) :
    List Nat → Option (Nat → PriceLevel)
  | [] => none
  | i :: slots =>
    match setQuantity id new_quantity (lv i).head with
    | some (old_quantity, l) =>
      some (setLevel lv i
        ⟨l, wrap64 ((lv i).total_quantity + wrap64 (new_quantity - old_quantity))⟩)
    | none => modifyInLevels lv id new_quantity slots

/-- The function `LockFreeOrderBook::modifyOrder`. -/
def modifyOrder (b : LockFreeOrderBook) (id : Nat) (new_quantity : Int) :
    LockFreeOrderBook × Bool :=
  if new_quantity ≤ 0 then (b, false)
  else
    match modifyInLevels b.buy_levels_ id new_quantity (List.range MAX_PRICE_LEVELS) with
    | some lv => ({ b with buy_levels_ := lv }, true)
    | none =>
      match modifyInLevels b.sell_levels_ id new_quantity (List.range MAX_PRICE_LEVELS) with
      | some lv => ({ b with sell_levels_ := lv }, true)
      | none => (b, false)

/-! ## Call sequences and live orders -/

/-- One call of the public mutating interface. -/
inductive Op where
  | add (id : Nat) (price quantity : Int) (is_buy : Bool)
  | cancel (id : Nat)
  | modify (id : Nat) (new_quantity : Int)
deriving DecidableEq, Repr

/-- The book after one call. -/
def step (b : LockFreeOrderBook) : Op → LockFreeOrderBook
  | .add id price quantity is_buy => (addOrder b id price quantity is_buy).1
  | .cancel id => (cancelOrder b id).1
  | .modify id new_quantity => (modifyOrder b id new_quantity).1

/-- The book after a sequence of calls on a freshly constructed book, run
one at a time. -/
def run (ops : List Op) : LockFreeOrderBook :=
  ops.foldl step LockFreeOrderBook.fresh

/-- The nodes of the lists of all `MAX_PRICE_LEVELS` slots of one level
array, in slot order. -/
def slotOrders (lv : Nat → PriceLevel) : List Order :=
  (List.range MAX_PRICE_LEVELS).flatMap (fun i => (lv i).head)

/-- The nodes of the lists of all slots of one level array but slot `i`. -/
def otherSlotOrders (lv : Nat → PriceLevel) (i : Nat) : List Order :=
  ((List.range MAX_PRICE_LEVELS).erase i).flatMap (fun j => (lv j).head)

/-- The orders resting on one side: the nodes of all lists of that side's
array. -/
def liveOrders (b : LockFreeOrderBook) (is_buy : Bool) : List Order :=
  slotOrders (b.levels is_buy)

/-- All orders resting in the book, buys first. -/
def allLive (b : LockFreeOrderBook) : List Order :=
  liveOrders b true ++ liveOrders b false

/-- The number of live orders carrying `id`. -/
def countId (b : LockFreeOrderBook) (id : Nat) : Nat :=
  (allLive b).countP (fun o => decide (o.id = id))

/-- The exact integer sum of the quantities of a list of orders. -/
def sumQuantities (l : List Order) : Int :=
  (l.map (fun o => o.quantity)).sum

/-- One slot of the array of side `is_buy` is consistent: its aggregate is
the 64-bit sum of the quantities in its list, and every order in the list
belongs to this slot and side and has a positive quantity. -/
def LevelOK (is_buy : Bool) (i : Nat) (l : PriceLevel) : Prop :=
  l.total_quantity = wrap64 (sumQuantities l.head) ∧
  ∀ o ∈ l.head, getPriceLevelIndex o.price = i ∧ o.is_buy = is_buy ∧ 0 < o.quantity

/-- Every slot of both arrays is consistent. -/
def Consistent (b : LockFreeOrderBook) : Prop :=
  ∀ is_buy i, LevelOK is_buy i (b.levels is_buy i)

/-- The price `best` is the best bid of the buy orders `live`: the highest
of their prices, or the empty sentinel `INT64_MIN` when there is none. -/
def IsBestBid (live : List Order) (best : Int) : Prop :=
  (∀ o ∈ live, o.price ≤ best) ∧ (live = [] → best = INT64_MIN) ∧
  (live ≠ [] → ∃ o ∈ live, o.price = best)

/-- The price `best` is the best ask of the sell orders `live`: the lowest
of their prices, or the empty sentinel `INT64_MAX` when there is none. -/
def IsBestAsk (live : List Order) (best : Int) : Prop :=
  (∀ o ∈ live, best ≤ o.price) ∧ (live = [] → best = INT64_MAX) ∧
  (live ≠ [] → ∃ o ∈ live, o.price = best)

/-- The call stays in the price domain `0 .. MAX_PRICE_LEVELS - 1`, on which
distinct prices have distinct slots. -/
def Op.InDomain : Op → Prop
  | .add _ price _ _ => 0 ≤ price ∧ price < MAX_PRICE_LEVELS
  | .cancel _ => True
  | .modify _ _ => True

/-- Every live price lies in `0 .. MAX_PRICE_LEVELS - 1`. -/
def PricesInDomain (b : LockFreeOrderBook) : Prop :=
  ∀ is_buy i, ∀ o ∈ (b.levels is_buy i).head, 0 ≤ o.price ∧ o.price < MAX_PRICE_LEVELS

/-- The exact sum of the quantities resting in each slot fits in `int64_t`. -/
def SumsInRange (b : LockFreeOrderBook) : Prop :=
  ∀ is_buy i, i < MAX_PRICE_LEVELS → sumQuantities (b.levels is_buy i).head ≤ INT64_MAX

/-- The calls `ops`, run one at a time from book `b`, all stay in the price
domain, and after each of them every slot's quantity sum fits in `int64_t`. -/
def TraceInRange (b : LockFreeOrderBook) : List Op → Prop
  | [] => True
  | op :: ops => op.InDomain ∧ SumsInRange (step b op) ∧ TraceInRange (step b op) ops

/-- The invariant of the books reached inside the price domain: consistent
slots, live prices in the domain, and both best prices correct. -/
def WellFormed (b : LockFreeOrderBook) : Prop :=
  Consistent b ∧ PricesInDomain b ∧
  IsBestBid (liveOrders b true) b.best_bid_ ∧ IsBestAsk (liveOrders b false) b.best_ask_

/-- The most a call can add to the quantity sum of a slot: the positive
quantity handed to `addOrder` or `modifyOrder`. -/
def Op.amount : Op → Int
  | .add _ _ quantity _ => if 0 < quantity then quantity else 0
  | .cancel _ => 0
  | .modify _ new_quantity => if 0 < new_quantity then new_quantity else 0

/-- The quantity sum of every slot is at most `bound`. -/
def SumsBounded (b : LockFreeOrderBook) (bound : Int) : Prop :=
  ∀ is_buy i, sumQuantities (b.levels is_buy i).head ≤ bound

/-- The order price of the call is a non-negative `int64_t` value. -/
def Op.PriceNonneg : Op → Prop
  | .add _ price _ _ => 0 ≤ price ∧ price ≤ INT64_MAX
  | .cancel _ => True
  | .modify _ _ => True

/-- Every live price is a non-negative `int64_t` value. -/
def PricesNonneg (b : LockFreeOrderBook) : Prop :=
  ∀ is_buy i, ∀ o ∈ (b.levels is_buy i).head, 0 ≤ o.price ∧ o.price ≤ INT64_MAX

/-- Each best price is its empty sentinel or falls in a slot of its side
whose list is not empty. -/
def BestSlotsLive (b : LockFreeOrderBook) : Prop :=
  (b.best_bid_ = INT64_MIN ∨ (b.levels true (getPriceLevelIndex b.best_bid_)).head ≠ []) ∧
  (b.best_ask_ = INT64_MAX ∨ (b.levels false (getPriceLevelIndex b.best_ask_)).head ≠ [])

/-! ## Example books -/

/-- Two buy orders at price `100` whose quantities `1` and `2 ^ 63 - 2` sum
to the largest `int64_t` value. -/
def nearMaxBook : LockFreeOrderBook :=
  run [.add 1 100 1 true, .add 2 100 9223372036854775806 true]

/-- One buy order, at price `100`. -/
def oneOrderBook : LockFreeOrderBook :=
  run [.add 1 100 10 true]

/-- Four buy orders of quantity `2 ^ 62` at price `100`: their sum is `2 ^ 64`. -/
def overflowBook : LockFreeOrderBook :=
  run [.add 1 100 4611686018427387904 true, .add 2 100 4611686018427387904 true,
    .add 3 100 4611686018427387904 true, .add 4 100 4611686018427387904 true]

/-- Buy orders at `10100` and then `100` share slot `100`, the later one at
the head; a third order is added and cancelled again. -/
def staleBidBook : LockFreeOrderBook :=
  run [.add 1 10100 10 true, .add 2 100 10 true, .add 3 50 5 true, .cancel 3]

/-- Scenario A followed by the cancel of its best bid, order `2`. -/
def scenarioD : LockFreeOrderBook :=
  run [.add 1 100 10 true, .add 2 101 20 true, .add 3 102 15 false, .add 4 103 25 false,
    .cancel 2]

/-- Two buy orders whose prices `100` and `10100` share slot `100`. -/
def aliasBook : LockFreeOrderBook :=
  run [.add 1 100 10 true, .add 2 10100 20 true]

/-- A fresh book after two accepted `addOrder` calls with the same id `1`. -/
def duplicateBook : LockFreeOrderBook :=
  run [.add 1 100 10 true, .add 1 105 7 true]

/-- Scenario B of the demo driver `main`: Scenario A, then `modifyOrder(2, 30)`. -/
def scenarioB : LockFreeOrderBook :=
  run [.add 1 100 10 true, .add 2 101 20 true, .add 3 102 15 false, .add 4 103 25 false,
    .modify 2 30]

/-- Scenario A of the demo driver `main`: four orders on a fresh book. -/
def scenarioA : LockFreeOrderBook :=
  run [.add 1 100 10 true, .add 2 101 20 true, .add 3 102 15 false, .add 4 103 25 false]

/-! ## Basic facts about the operations -/

theorem getPriceLevelIndex_lt (price : Int) : getPriceLevelIndex price < MAX_PRICE_LEVELS :=
  Nat.mod_lt _ (by decide)

theorem getPriceLevelIndex_of_inDomain (price : Int) (h0 : 0 ≤ price)
    (h1 : price < MAX_PRICE_LEVELS) : (getPriceLevelIndex price : Int) = price := by
  unfold getPriceLevelIndex TWO64
  unfold MAX_PRICE_LEVELS at *
  omega

theorem setLevel_same (lv : Nat → PriceLevel) (i : Nat) (l : PriceLevel) :
    setLevel lv i l i = l := by
  simp [setLevel]

theorem setLevel_other (lv : Nat → PriceLevel) (i j : Nat) (l : PriceLevel) (h : j ≠ i) :
    setLevel lv i l j = lv j := by
  simp [setLevel, h]

theorem addOrder_rejects (b : LockFreeOrderBook) (id : Nat) (price quantity : Int)
    (is_buy : Bool) (h : quantity ≤ 0) : addOrder b id price quantity is_buy = (b, false) := by
  simp [addOrder, h]

theorem addOrder_accepts (b : LockFreeOrderBook) (id : Nat) (price quantity : Int)
    (is_buy : Bool) (h : 0 < quantity) : (addOrder b id price quantity is_buy).2 = true := by
  have h' : ¬ quantity ≤ 0 := by omega
  cases is_buy <;> simp [addOrder, h']

theorem addOrder_levels_same (b : LockFreeOrderBook) (id : Nat) (price quantity : Int)
    (is_buy : Bool) (h : 0 < quantity) :
    (addOrder b id price quantity is_buy).1.levels is_buy =
      pushOrder (b.levels is_buy) (getPriceLevelIndex price) ⟨id, price, quantity, is_buy⟩ := by
  have h' : ¬ quantity ≤ 0 := by omega
  cases is_buy <;> simp [addOrder, h', LockFreeOrderBook.levels]

theorem addOrder_levels_other (b : LockFreeOrderBook) (id : Nat) (price quantity : Int)
    (is_buy : Bool) :
    (addOrder b id price quantity is_buy).1.levels (!is_buy) = b.levels (!is_buy) := by
  by_cases h : quantity ≤ 0
  · simp [addOrder, h]
  · cases is_buy <;> simp [addOrder, h, LockFreeOrderBook.levels]

/-! ## The list loops -/

theorem unlink_eq_none_iff (id : Nat) (l : List Order) :
    unlink id l = none ↔ ∀ o ∈ l, o.id ≠ id := by
  induction l with
  | nil => simp [unlink]
  | cons c t ih =>
    by_cases hc : c.id = id
    · simp [unlink, hc]
    · cases hu : unlink id t with
      | none => simpa [unlink, hc, hu] using ih.mp hu
      | some fr =>
        have hne : ¬ ∀ o ∈ t, o.id ≠ id := fun hall => by
          rw [ih.mpr hall] at hu; cases hu
        simp only [unlink, hc, hu, if_false, List.mem_cons, forall_eq_or_imp]
        constructor
        · intro h; cases h
        · intro h; exact absurd h.2 hne

theorem unlink_some_spec (id : Nat) (l : List Order) (found : Order) (rest : List Order)
    (h : unlink id l = some (found, rest)) :
    ∃ l1 l2, l = l1 ++ found :: l2 ∧ rest = l1 ++ l2 ∧ found.id = id ∧
      ∀ o ∈ l1, o.id ≠ id := by
  induction l generalizing rest with
  | nil => simp [unlink] at h
  | cons c t ih =>
    by_cases hc : c.id = id
    · simp only [unlink, hc, if_true, Option.some.injEq, Prod.mk.injEq] at h
      obtain ⟨h1, h2⟩ := h
      subst h1 h2
      exact ⟨[], t, rfl, rfl, hc, by simp⟩
    · cases hu : unlink id t with
      | none => simp [unlink, hc, hu] at h
      | some fr =>
        obtain ⟨f, r⟩ := fr
        simp only [unlink, hc, hu, if_false, Option.some.injEq, Prod.mk.injEq] at h
        obtain ⟨h1, h2⟩ := h
        subst h1 h2
        obtain ⟨l1, l2, e1, e2, e3, e4⟩ := ih r hu
        refine ⟨c :: l1, l2, by simp [e1], by simp [e2], e3, ?_⟩
        intro o ho
        rcases List.mem_cons.mp ho with rfl | ho
        · exact hc
        · exact e4 o ho

theorem setQuantity_eq_none_iff (id : Nat) (q : Int) (l : List Order) :
    setQuantity id q l = none ↔ ∀ o ∈ l, o.id ≠ id := by
  induction l with
  | nil => simp [setQuantity]
  | cons c t ih =>
    by_cases hc : c.id = id
    · simp [setQuantity, hc]
    · cases hu : setQuantity id q t with
      | none => simpa [setQuantity, hc, hu] using ih.mp hu
      | some fr =>
        have hne : ¬ ∀ o ∈ t, o.id ≠ id := fun hall => by
          rw [ih.mpr hall] at hu; cases hu
        simp only [setQuantity, hc, hu, if_false, List.mem_cons, forall_eq_or_imp]
        constructor
        · intro h; cases h
        · intro h; exact absurd h.2 hne

theorem setQuantity_some_spec (id : Nat) (q : Int) (l : List Order) (old : Int)
    (rest : List Order) (h : setQuantity id q l = some (old, rest)) :
    ∃ l1 f l2, l = l1 ++ f :: l2 ∧ rest = l1 ++ { f with quantity := q } :: l2 ∧
      f.id = id ∧ f.quantity = old ∧ ∀ o ∈ l1, o.id ≠ id := by
  induction l generalizing rest with
  | nil => simp [setQuantity] at h
  | cons c t ih =>
    by_cases hc : c.id = id
    · simp only [setQuantity, if_pos hc, Option.some.injEq, Prod.mk.injEq] at h
      obtain ⟨h1, h2⟩ := h
      subst h1 h2
      exact ⟨[], c, t, rfl, rfl, hc, rfl, by simp⟩
    · cases hu : setQuantity id q t with
      | none => simp [setQuantity, hc, hu] at h
      | some fr =>
        obtain ⟨f, r⟩ := fr
        simp only [setQuantity, hc, hu, if_false, Option.some.injEq, Prod.mk.injEq] at h
        obtain ⟨h1, h2⟩ := h
        subst h1 h2
        obtain ⟨l1, g, l2, e1, e2, e3, e4, e5⟩ := ih r hu
        refine ⟨c :: l1, g, l2, by simp [e1], by simp [e2], e3, e4, ?_⟩
        intro o ho
        rcases List.mem_cons.mp ho with rfl | ho
        · exact hc
        · exact e5 o ho

/-! ## The slot loops -/

theorem cancelInLevels_eq_none_iff (lv : Nat → PriceLevel) (id : Nat) (slots : List Nat) :
    cancelInLevels lv id slots = none ↔ ∀ i ∈ slots, ∀ o ∈ (lv i).head, o.id ≠ id := by
  induction slots with
  | nil => simp [cancelInLevels]
  | cons i t ih =>
    cases hu : unlink id (lv i).head with
    | none =>
      have h0 := (unlink_eq_none_iff id (lv i).head).mp hu
      simp only [cancelInLevels, hu, ih, List.mem_cons, forall_eq_or_imp]
      exact ⟨fun h => ⟨h0, h⟩, fun h => h.2⟩
    | some fr =>
      have hne : ¬ ∀ o ∈ (lv i).head, o.id ≠ id := fun hall => by
        rw [(unlink_eq_none_iff id (lv i).head).mpr hall] at hu; cases hu
      simp only [cancelInLevels, hu, List.mem_cons, forall_eq_or_imp]
      constructor
      · intro h; cases h
      · intro h; exact absurd h.1 hne

theorem cancelInLevels_some_spec (lv lv' : Nat → PriceLevel) (id : Nat) (slots : List Nat)
    (h : cancelInLevels lv id slots = some lv') :
    ∃ i ∈ slots, ∃ found rest, unlink id (lv i).head = some (found, rest) ∧
      lv' = setLevel lv i ⟨rest, wrap64 ((lv i).total_quantity - found.quantity)⟩ := by
  induction slots with
  | nil => simp [cancelInLevels] at h
  | cons i t ih =>
    cases hu : unlink id (lv i).head with
    | none =>
      simp only [cancelInLevels, hu] at h
      obtain ⟨j, hj, rest⟩ := ih h
      exact ⟨j, List.mem_cons_of_mem _ hj, rest⟩
    | some fr =>
      obtain ⟨f, r⟩ := fr
      simp only [cancelInLevels, hu, Option.some.injEq] at h
      exact ⟨i, List.mem_cons_self _ _, f, r, hu, h.symm⟩

theorem modifyInLevels_eq_none_iff (lv : Nat → PriceLevel) (id : Nat) (q : Int)
    (slots : List Nat) :
    modifyInLevels lv id q slots = none ↔ ∀ i ∈ slots, ∀ o ∈ (lv i).head, o.id ≠ id := by
  induction slots with
  | nil => simp [modifyInLevels]
  | cons i t ih =>
    cases hu : setQuantity id q (lv i).head with
    | none =>
      have h0 := (setQuantity_eq_none_iff id q (lv i).head).mp hu
      simp only [modifyInLevels, hu, ih, List.mem_cons, forall_eq_or_imp]
      exact ⟨fun h => ⟨h0, h⟩, fun h => h.2⟩
    | some fr =>
      have hne : ¬ ∀ o ∈ (lv i).head, o.id ≠ id := fun hall => by
        rw [(setQuantity_eq_none_iff id q (lv i).head).mpr hall] at hu; cases hu
      simp only [modifyInLevels, hu, List.mem_cons, forall_eq_or_imp]
      constructor
      · intro h; cases h
      · intro h; exact absurd h.1 hne

theorem modifyInLevels_some_spec (lv lv' : Nat → PriceLevel) (id : Nat) (q : Int)
    (slots : List Nat) (h : modifyInLevels lv id q slots = some lv') :
    ∃ i ∈ slots, ∃ old rest, setQuantity id q (lv i).head = some (old, rest) ∧
      lv' = setLevel lv i ⟨rest, wrap64 ((lv i).total_quantity + wrap64 (q - old))⟩ := by
  induction slots with
  | nil => simp [modifyInLevels] at h
  | cons i t ih =>
    cases hu : setQuantity id q (lv i).head with
    | none =>
      simp only [modifyInLevels, hu] at h
      obtain ⟨j, hj, rest⟩ := ih h
      exact ⟨j, List.mem_cons_of_mem _ hj, rest⟩
    | some fr =>
      obtain ⟨f, r⟩ := fr
      simp only [modifyInLevels, hu, Option.some.injEq] at h
      exact ⟨i, List.mem_cons_self _ _, f, r, hu, h.symm⟩

/-! ## Live orders -/

theorem mem_liveOrders (b : LockFreeOrderBook) (is_buy : Bool) (o : Order) :
    o ∈ liveOrders b is_buy ↔ ∃ i, i < MAX_PRICE_LEVELS ∧ o ∈ (b.levels is_buy i).head := by
  simp [liveOrders, slotOrders, List.mem_flatMap, List.mem_range]

theorem mem_allLive (b : LockFreeOrderBook) (o : Order) :
    o ∈ allLive b ↔ ∃ is_buy i, i < MAX_PRICE_LEVELS ∧ o ∈ (b.levels is_buy i).head := by
  simp only [allLive, List.mem_append, mem_liveOrders]
  constructor
  · rintro (⟨i, hi, ho⟩ | ⟨i, hi, ho⟩)
    · exact ⟨true, i, hi, ho⟩
    · exact ⟨false, i, hi, ho⟩
  · rintro ⟨s, i, hi, ho⟩
    cases s
    · exact Or.inr ⟨i, hi, ho⟩
    · exact Or.inl ⟨i, hi, ho⟩

theorem no_live_iff (b : LockFreeOrderBook) (id : Nat) :
    (∀ o ∈ allLive b, o.id ≠ id) ↔
      (∀ i ∈ List.range MAX_PRICE_LEVELS, ∀ o ∈ (b.buy_levels_ i).head, o.id ≠ id) ∧
      (∀ i ∈ List.range MAX_PRICE_LEVELS, ∀ o ∈ (b.sell_levels_ i).head, o.id ≠ id) := by
  simp only [mem_allLive, List.mem_range]
  constructor
  · intro h
    exact ⟨fun i hi o ho => h o ⟨true, i, hi, ho⟩, fun i hi o ho => h o ⟨false, i, hi, ho⟩⟩
  · rintro ⟨h1, h2⟩ o ⟨s, i, hi, ho⟩
    cases s
    · exact h2 i hi o ho
    · exact h1 i hi o ho

/-! ## 64-bit wrap-around -/

theorem wrap64_of_inRange (x : Int) (h0 : INT64_MIN ≤ x) (h1 : x ≤ INT64_MAX) :
    wrap64 x = x := by
  unfold wrap64 TWO64
  unfold INT64_MIN at h0
  unfold INT64_MAX at h1
  omega

theorem wrap64_add_left (a c : Int) : wrap64 (wrap64 a + c) = wrap64 (a + c) := by
  unfold wrap64 TWO64
  omega

theorem wrap64_add_right (a c : Int) : wrap64 (a + wrap64 c) = wrap64 (a + c) := by
  unfold wrap64 TWO64
  omega

theorem wrap64_sub_left (a c : Int) : wrap64 (wrap64 a - c) = wrap64 (a - c) := by
  unfold wrap64 TWO64
  omega

theorem wrap64_zero : wrap64 0 = 0 := by decide

/-! ## Slot arrays under assignment to one slot -/

theorem slotOrders_perm (lv : Nat → PriceLevel) (i : Nat) (hi : i < MAX_PRICE_LEVELS) :
    (slotOrders lv).Perm ((lv i).head ++ otherSlotOrders lv i) := by
  have h := List.perm_cons_erase (List.mem_range.mpr hi)
  have h2 := List.Perm.flatMap_right (fun j => (lv j).head) h
  simpa [slotOrders, otherSlotOrders] using h2

theorem otherSlotOrders_setLevel (lv : Nat → PriceLevel) (i : Nat) (l : PriceLevel) :
    otherSlotOrders (setLevel lv i l) i = otherSlotOrders lv i := by
  unfold otherSlotOrders
  apply List.flatMap_congr
  intro j hj
  have hne : j ≠ i := ((List.nodup_range MAX_PRICE_LEVELS).mem_erase_iff.mp hj).1
  simp [setLevel, hne]

theorem slotOrders_setLevel_perm (lv : Nat → PriceLevel) (i : Nat) (l : PriceLevel)
    (hi : i < MAX_PRICE_LEVELS) :
    (slotOrders (setLevel lv i l)).Perm (l.head ++ otherSlotOrders lv i) := by
  have h := slotOrders_perm (setLevel lv i l) i hi
  rwa [otherSlotOrders_setLevel, setLevel_same] at h

theorem mem_otherSlotOrders (lv : Nat → PriceLevel) (i : Nat) (o : Order) :
    o ∈ otherSlotOrders lv i ↔ ∃ j, j < MAX_PRICE_LEVELS ∧ j ≠ i ∧ o ∈ (lv j).head := by
  simp only [otherSlotOrders, List.mem_flatMap,
    (List.nodup_range MAX_PRICE_LEVELS).mem_erase_iff, List.mem_range]
  constructor
  · rintro ⟨j, ⟨h1, h2⟩, h3⟩
    exact ⟨j, h2, h1, h3⟩
  · rintro ⟨j, h2, h1, h3⟩
    exact ⟨j, ⟨h1, h2⟩, h3⟩

theorem countP_slotOrders (p : Order → Bool) (lv : Nat → PriceLevel) (i : Nat)
    (hi : i < MAX_PRICE_LEVELS) :
    (slotOrders lv).countP p = (lv i).head.countP p + (otherSlotOrders lv i).countP p := by
  rw [(slotOrders_perm lv i hi).countP_eq p, List.countP_append]

theorem countP_slotOrders_setLevel (p : Order → Bool) (lv : Nat → PriceLevel) (i : Nat)
    (l : PriceLevel) (hi : i < MAX_PRICE_LEVELS) :
    (slotOrders (setLevel lv i l)).countP p =
      l.head.countP p + (otherSlotOrders lv i).countP p := by
  rw [(slotOrders_setLevel_perm lv i l hi).countP_eq p, List.countP_append]

theorem countId_eq (b : LockFreeOrderBook) (id : Nat) :
    countId b id =
      (slotOrders b.buy_levels_).countP (fun o => decide (o.id = id)) +
      (slotOrders b.sell_levels_).countP (fun o => decide (o.id = id)) := by
  simp [countId, allLive, liveOrders, LockFreeOrderBook.levels]

theorem countId_eq_side (b : LockFreeOrderBook) (id : Nat) (is_buy : Bool) :
    countId b id =
      (slotOrders (b.levels is_buy)).countP (fun o => decide (o.id = id)) +
      (slotOrders (b.levels (!is_buy))).countP (fun o => decide (o.id = id)) := by
  rw [countId_eq]
  cases is_buy
  · simp [LockFreeOrderBook.levels, Nat.add_comm]
  · simp [LockFreeOrderBook.levels]

theorem countId_eq_zero_iff (b : LockFreeOrderBook) (id : Nat) :
    countId b id = 0 ↔ ∀ o ∈ allLive b, o.id ≠ id := by
  simp [countId, List.countP_eq_zero]

/-! ## Success of `cancelOrder` and `modifyOrder` -/

theorem updateBestPrices_levels (b : LockFreeOrderBook) (is_buy : Bool) :
    (updateBestPrices b).levels is_buy = b.levels is_buy := by
  unfold updateBestPrices LockFreeOrderBook.levels
  cases is_buy <;> exact rfl

theorem cancelOrder_true_spec (b : LockFreeOrderBook) (id : Nat)
    (h : (cancelOrder b id).2 = true) :
    ∃ is_buy i found rest, i < MAX_PRICE_LEVELS ∧
      unlink id (b.levels is_buy i).head = some (found, rest) ∧
      (cancelOrder b id).1.levels is_buy =
        setLevel (b.levels is_buy) i
          ⟨rest, wrap64 ((b.levels is_buy i).total_quantity - found.quantity)⟩ ∧
      (cancelOrder b id).1.levels (!is_buy) = b.levels (!is_buy) := by
  unfold cancelOrder at h ⊢
  cases h1 : cancelInLevels b.buy_levels_ id (List.range MAX_PRICE_LEVELS) with
  | some lv =>
    obtain ⟨i, hi, f, r, hu, hlv⟩ := cancelInLevels_some_spec _ _ _ _ h1
    refine ⟨true, i, f, r, List.mem_range.mp hi, hu, ?_, ?_⟩
    · simp only [updateBestPrices_levels]
      simp [LockFreeOrderBook.levels, hlv]
    · simp only [updateBestPrices_levels]
      simp [LockFreeOrderBook.levels]
  | none =>
    cases h2 : cancelInLevels b.sell_levels_ id (List.range MAX_PRICE_LEVELS) with
    | some lv =>
      obtain ⟨i, hi, f, r, hu, hlv⟩ := cancelInLevels_some_spec _ _ _ _ h2
      refine ⟨false, i, f, r, List.mem_range.mp hi, hu, ?_, ?_⟩
      · simp only [updateBestPrices_levels]
        simp [LockFreeOrderBook.levels, hlv]
      · simp only [updateBestPrices_levels]
        simp [LockFreeOrderBook.levels]
    | none => simp [h1, h2] at h

theorem modifyOrder_true_spec (b : LockFreeOrderBook) (id : Nat) (q : Int)
    (h : (modifyOrder b id q).2 = true) :
    ∃ is_buy i old rest, i < MAX_PRICE_LEVELS ∧
      setQuantity id q (b.levels is_buy i).head = some (old, rest) ∧
      (modifyOrder b id q).1.levels is_buy =
        setLevel (b.levels is_buy) i
          ⟨rest, wrap64 ((b.levels is_buy i).total_quantity + wrap64 (q - old))⟩ ∧
      (modifyOrder b id q).1.levels (!is_buy) = b.levels (!is_buy) := by
  unfold modifyOrder at h ⊢
  by_cases hq : q ≤ 0
  · simp [hq] at h
  rw [if_neg hq] at h ⊢
  cases h1 : modifyInLevels b.buy_levels_ id q (List.range MAX_PRICE_LEVELS) with
  | some lv =>
    obtain ⟨i, hi, f, r, hu, hlv⟩ := modifyInLevels_some_spec _ _ _ _ _ h1
    refine ⟨true, i, f, r, List.mem_range.mp hi, hu, ?_, ?_⟩
    · simp [LockFreeOrderBook.levels, hlv]
    · simp [LockFreeOrderBook.levels]
  | none =>
    cases h2 : modifyInLevels b.sell_levels_ id q (List.range MAX_PRICE_LEVELS) with
    | some lv =>
      obtain ⟨i, hi, f, r, hu, hlv⟩ := modifyInLevels_some_spec _ _ _ _ _ h2
      refine ⟨false, i, f, r, List.mem_range.mp hi, hu, ?_, ?_⟩
      · simp [LockFreeOrderBook.levels, hlv]
      · simp [LockFreeOrderBook.levels]
    | none => simp [h1, h2] at h

theorem modifyOrder_best (b : LockFreeOrderBook) (id : Nat) (q : Int) :
    (modifyOrder b id q).1.best_bid_ = b.best_bid_ ∧
    (modifyOrder b id q).1.best_ask_ = b.best_ask_ := by
  unfold modifyOrder
  by_cases hq : q ≤ 0
  · simp [hq]
  rw [if_neg hq]
  cases h1 : modifyInLevels b.buy_levels_ id q (List.range MAX_PRICE_LEVELS) with
  | some lv => simp
  | none =>
    cases h2 : modifyInLevels b.sell_levels_ id q (List.range MAX_PRICE_LEVELS) with
    | some lv => simp
    | none => simp

theorem countId_addOrder (b : LockFreeOrderBook) (id : Nat) (price quantity : Int)
    (is_buy : Bool) (hq : 0 < quantity) (id' : Nat) :
    countId (addOrder b id price quantity is_buy).1 id' =
      countId b id' + (if id = id' then 1 else 0) := by
  rw [countId_eq_side _ id' is_buy, countId_eq_side b id' is_buy,
    addOrder_levels_other, addOrder_levels_same b id price quantity is_buy hq, pushOrder,
    countP_slotOrders_setLevel _ _ _ _ (getPriceLevelIndex_lt price),
    countP_slotOrders _ (b.levels is_buy) _ (getPriceLevelIndex_lt price),
    List.countP_cons]
  simp only [decide_eq_true_eq]
  omega

theorem countId_cancelOrder (b : LockFreeOrderBook) (id : Nat)
    (h : (cancelOrder b id).2 = true) :
    countId (cancelOrder b id).1 id + 1 = countId b id := by
  obtain ⟨s, i, f, r, hi, hu, hl, ho⟩ := cancelOrder_true_spec b id h
  obtain ⟨l1, l2, e1, e2, e3, -⟩ := unlink_some_spec _ _ _ _ hu
  rw [countId_eq_side _ id s, countId_eq_side b id s, hl, ho,
    countP_slotOrders_setLevel _ _ _ _ hi, countP_slotOrders _ (b.levels s) _ hi, e1, e2]
  simp only [List.countP_append, List.countP_cons, e3, decide_True, if_true]
  omega

/-! ## Failure of `cancelOrder` and `modifyOrder` -/

theorem cancelOrder_snd_false_iff (b : LockFreeOrderBook) (id : Nat) :
    (cancelOrder b id).2 = false ↔ ∀ o ∈ allLive b, o.id ≠ id := by
  rw [no_live_iff, ← cancelInLevels_eq_none_iff, ← cancelInLevels_eq_none_iff]
  unfold cancelOrder
  cases h1 : cancelInLevels b.buy_levels_ id (List.range MAX_PRICE_LEVELS) with
  | some lv => simp
  | none =>
    cases h2 : cancelInLevels b.sell_levels_ id (List.range MAX_PRICE_LEVELS) with
    | some lv => simp
    | none => simp

theorem cancelOrder_of_snd_false (b : LockFreeOrderBook) (id : Nat)
    (h : (cancelOrder b id).2 = false) : cancelOrder b id = (b, false) := by
  unfold cancelOrder at h ⊢
  cases h1 : cancelInLevels b.buy_levels_ id (List.range MAX_PRICE_LEVELS) with
  | some lv => simp [h1] at h
  | none =>
    cases h2 : cancelInLevels b.sell_levels_ id (List.range MAX_PRICE_LEVELS) with
    | some lv => simp [h1, h2] at h
    | none => rfl

theorem modifyOrder_snd_false_iff (b : LockFreeOrderBook) (id : Nat) (q : Int) :
    (modifyOrder b id q).2 = false ↔ (q ≤ 0 ∨ ∀ o ∈ allLive b, o.id ≠ id) := by
  rw [no_live_iff, ← modifyInLevels_eq_none_iff _ _ q, ← modifyInLevels_eq_none_iff _ _ q]
  unfold modifyOrder
  by_cases hq : q ≤ 0
  · simp [hq]
  · rw [if_neg hq]
    cases h1 : modifyInLevels b.buy_levels_ id q (List.range MAX_PRICE_LEVELS) with
    | some lv => simp [hq]
    | none =>
      cases h2 : modifyInLevels b.sell_levels_ id q (List.range MAX_PRICE_LEVELS) with
      | some lv => simp [hq]
      | none => simp

theorem modifyOrder_of_snd_false (b : LockFreeOrderBook) (id : Nat) (q : Int)
    (h : (modifyOrder b id q).2 = false) : modifyOrder b id q = (b, false) := by
  unfold modifyOrder at h ⊢
  by_cases hq : q ≤ 0
  · simp [hq]
  · rw [if_neg hq] at h ⊢
    cases h1 : modifyInLevels b.buy_levels_ id q (List.range MAX_PRICE_LEVELS) with
    | some lv => simp [h1] at h
    | none =>
      cases h2 : modifyInLevels b.sell_levels_ id q (List.range MAX_PRICE_LEVELS) with
      | some lv => simp [h1, h2] at h
      | none => rfl

theorem addOrder_new_order_live (b : LockFreeOrderBook) (id : Nat) (price quantity : Int)
    (is_buy : Bool) (h : 0 < quantity) :
    (⟨id, price, quantity, is_buy⟩ : Order) ∈
      allLive (addOrder b id price quantity is_buy).1 := by
  rw [mem_allLive]
  refine ⟨is_buy, getPriceLevelIndex price, getPriceLevelIndex_lt price, ?_⟩
  rw [addOrder_levels_same b id price quantity is_buy h]
  simp [pushOrder, setLevel]

/-! ## Claims on indexing and on rejected calls -/

/-- C4: for every price, so for every representable 64-bit signed `Price`
and every negative one among them, `getPriceLevelIndex` returns a slot
number in `0 .. MAX_PRICE_LEVELS - 1`; `addOrder` and `getQuantityAtPrice`
index the level arrays with exactly this number. -/
theorem getPriceLevelIndex_in_bounds (price : Int) :
    0 ≤ getPriceLevelIndex price ∧ getPriceLevelIndex price < MAX_PRICE_LEVELS :=
  ⟨Nat.zero_le _, getPriceLevelIndex_lt price⟩

/-- C6: `addOrder` with a quantity `≤ 0` returns `false` and the book is
unchanged; with a quantity `> 0` it returns `true`, so it is never rejected
for its quantity. -/
theorem addOrder_invalid_quantity (b : LockFreeOrderBook) (id : Nat) (price quantity : Int)
    (is_buy : Bool) :
    (quantity ≤ 0 → addOrder b id price quantity is_buy = (b, false)) ∧
    (0 < quantity → (addOrder b id price quantity is_buy).2 = true) :=
  ⟨addOrder_rejects b id price quantity is_buy, addOrder_accepts b id price quantity is_buy⟩

/-- C6 on Scenario A: quantities `0` and `-5` are rejected without any
change, quantity `10` is accepted. -/
theorem addOrder_invalid_quantity_witness :
    addOrder scenarioA 9 100 0 true = (scenarioA, false) ∧
    addOrder scenarioA 9 100 (-5) false = (scenarioA, false) ∧
    (addOrder scenarioA 9 100 10 true).2 = true :=
  ⟨(addOrder_invalid_quantity scenarioA 9 100 0 true).1 (by decide),
   (addOrder_invalid_quantity scenarioA 9 100 (-5) false).1 (by decide),
   (addOrder_invalid_quantity scenarioA 9 100 10 true).2 (by decide)⟩

/-- C3 fails: on a fresh book `addOrder` accepts the price `10100`, which is
not below `MAX_PRICE_LEVELS`, and the negative price `-1`; the aggregate read
back at `10100` and the best bid have changed. -/
theorem addOrder_out_of_range_accepted :
    ¬ ((10100 : Int) < MAX_PRICE_LEVELS) ∧
    (addOrder LockFreeOrderBook.fresh 1 10100 10 true).2 = true ∧
    getQuantityAtPrice LockFreeOrderBook.fresh 10100 true = 0 ∧
    getQuantityAtPrice (addOrder LockFreeOrderBook.fresh 1 10100 10 true).1 10100 true = 10 ∧
    getBestBid LockFreeOrderBook.fresh = INT64_MIN ∧
    getBestBid (addOrder LockFreeOrderBook.fresh 1 10100 10 true).1 = 10100 ∧
    (addOrder LockFreeOrderBook.fresh 2 (-1) 5 false).2 = true := by
  decide

/-- C3 as amended: a price outside `0 .. MAX_PRICE_LEVELS - 1` is not
rejected.  With a positive quantity `addOrder` returns `true`, pushes the
order at the head of the in-bounds slot `getPriceLevelIndex price` of its
side, adds the quantity to that slot's aggregate (64-bit wrap), leaves every
other slot and the other side as they were, and updates the best price of
its side as for any other order.  That slot is also the slot of a price
inside `0 .. MAX_PRICE_LEVELS - 1`, with which the order is aliased. -/
theorem addOrder_out_of_range_aliases (b : LockFreeOrderBook) (id : Nat)
    (price quantity : Int) (is_buy : Bool)
    (hprice : price < 0 ∨ (MAX_PRICE_LEVELS : Int) ≤ price) (hq : 0 < quantity) :
    (addOrder b id price quantity is_buy).2 = true ∧
    getPriceLevelIndex price < MAX_PRICE_LEVELS ∧
    (∃ p : Int, 0 ≤ p ∧ p < MAX_PRICE_LEVELS ∧ p ≠ price ∧
      getPriceLevelIndex p = getPriceLevelIndex price) ∧
    (addOrder b id price quantity is_buy).1.levels is_buy (getPriceLevelIndex price) =
      ⟨⟨id, price, quantity, is_buy⟩ :: (b.levels is_buy (getPriceLevelIndex price)).head,
        wrap64 ((b.levels is_buy (getPriceLevelIndex price)).total_quantity + quantity)⟩ ∧
    (∀ j, j ≠ getPriceLevelIndex price →
      (addOrder b id price quantity is_buy).1.levels is_buy j = b.levels is_buy j) ∧
    (addOrder b id price quantity is_buy).1.levels (!is_buy) = b.levels (!is_buy) ∧
    getBestBid (addOrder b id price quantity is_buy).1 =
      (if is_buy = true ∧ price > getBestBid b then price else getBestBid b) ∧
    getBestAsk (addOrder b id price quantity is_buy).1 =
      (if is_buy = false ∧ price < getBestAsk b then price else getBestAsk b) := by
  have hq' : ¬ quantity ≤ 0 := by omega
  have hlt := getPriceLevelIndex_lt price
  refine ⟨addOrder_accepts b id price quantity is_buy hq, hlt, ?_, ?_, ?_,
    addOrder_levels_other b id price quantity is_buy, ?_, ?_⟩
  · refine ⟨(getPriceLevelIndex price : Int), by omega, by exact_mod_cast hlt, ?_, ?_⟩
    · intro he
      have h2 : ((getPriceLevelIndex price : Nat) : Int) < (MAX_PRICE_LEVELS : Int) := by
        exact_mod_cast hlt
      omega
    · have h2 := getPriceLevelIndex_of_inDomain (getPriceLevelIndex price : Int) (by omega)
        (by exact_mod_cast hlt)
      exact_mod_cast h2
  · rw [addOrder_levels_same b id price quantity is_buy hq]
    simp [pushOrder, setLevel]
  · intro j hj
    rw [addOrder_levels_same b id price quantity is_buy hq]
    simp [pushOrder, setLevel, hj]
  · cases is_buy <;> simp [addOrder, hq', getBestBid]
  · cases is_buy <;> simp [addOrder, hq', getBestAsk]

/-- C3 as amended, on Scenario A with the out-of-range buy price `10101`:
the order is accepted and lands in slot `101`, on top of order `2`. -/
theorem addOrder_out_of_range_aliases_witness :
    (addOrder scenarioA 5 10101 7 true).2 = true ∧
    getPriceLevelIndex 10101 = 101 ∧
    (addOrder scenarioA 5 10101 7 true).1.levels true 101 =
      ⟨[⟨5, 10101, 7, true⟩, ⟨2, 101, 20, true⟩], 27⟩ ∧
    getBestBid (addOrder scenarioA 5 10101 7 true).1 = 10101 := by
  have h := addOrder_out_of_range_aliases scenarioA 5 10101 7 true (by decide) (by decide)
  refine ⟨h.1, by decide, ?_, ?_⟩
  · have h3 := h.2.2.2.1
    rw [show getPriceLevelIndex 10101 = 101 by decide] at h3
    rw [h3]
    decide
  · rw [h.2.2.2.2.2.2.1]
    decide

/-- C7: `cancelOrder(id)` returns `false` exactly when no live order of
either side carries `id`; when it returns `false` the book is unchanged;
and after an `addOrder(id, ...)` that returned `true`, `cancelOrder(id)`
returns `true`. -/
theorem cancelOrder_fails_iff_unknown (b : LockFreeOrderBook) (id : Nat) :
    ((cancelOrder b id).2 = false ↔ ∀ o ∈ allLive b, o.id ≠ id) ∧
    ((cancelOrder b id).2 = false → (cancelOrder b id).1 = b) ∧
    (∀ price quantity is_buy, (addOrder b id price quantity is_buy).2 = true →
      (cancelOrder (addOrder b id price quantity is_buy).1 id).2 = true) := by
  refine ⟨cancelOrder_snd_false_iff b id, ?_, ?_⟩
  · intro h
    rw [cancelOrder_of_snd_false b id h]
  · intro price quantity is_buy hadd
    have hq : 0 < quantity := by
      by_contra hq
      rw [addOrder_rejects b id price quantity is_buy (by omega)] at hadd
      cases hadd
    cases hc : (cancelOrder (addOrder b id price quantity is_buy).1 id).2 with
    | true => rfl
    | false =>
      exact absurd rfl ((cancelOrder_snd_false_iff _ id).mp hc _
        (addOrder_new_order_live b id price quantity is_buy hq))

/-- C9: `modifyOrder(id, newQuantity)` returns `false` exactly when
`newQuantity <= 0` or no live order carries `id`, and whenever it returns
`false` the book is unchanged. -/
theorem modifyOrder_fails_iff (b : LockFreeOrderBook) (id : Nat) (new_quantity : Int) :
    ((modifyOrder b id new_quantity).2 = false ↔
      (new_quantity ≤ 0 ∨ ∀ o ∈ allLive b, o.id ≠ id)) ∧
    ((modifyOrder b id new_quantity).2 = false → (modifyOrder b id new_quantity).1 = b) := by
  refine ⟨modifyOrder_snd_false_iff b id new_quantity, ?_⟩
  intro h
  rw [modifyOrder_of_snd_false b id new_quantity h]

/-! ## Consistency of the slots in every reachable book -/

theorem sumQuantities_cons (o : Order) (l : List Order) :
    sumQuantities (o :: l) = o.quantity + sumQuantities l := by
  simp [sumQuantities]

theorem sumQuantities_append (l1 l2 : List Order) :
    sumQuantities (l1 ++ l2) = sumQuantities l1 + sumQuantities l2 := by
  simp [sumQuantities]

theorem consistent_fresh : Consistent LockFreeOrderBook.fresh := by
  intro s i
  cases s <;>
    simp [LevelOK, LockFreeOrderBook.levels, LockFreeOrderBook.fresh, sumQuantities, wrap64_zero]

theorem consistent_of_setLevel (b b' : LockFreeOrderBook) (is_buy : Bool) (i : Nat)
    (l : PriceLevel) (h : Consistent b)
    (hs : b'.levels is_buy = setLevel (b.levels is_buy) i l)
    (ho : b'.levels (!is_buy) = b.levels (!is_buy)) (hl : LevelOK is_buy i l) :
    Consistent b' := by
  intro s j
  by_cases hsb : s = is_buy
  · subst hsb
    rw [hs]
    by_cases hj : j = i
    · subst hj
      rw [setLevel_same]
      exact hl
    · rw [setLevel_other _ _ _ _ hj]
      exact h s j
  · have hs' : s = !is_buy := by cases s <;> cases is_buy <;> simp_all
    subst hs'
    rw [ho]
    exact h _ j

theorem consistent_addOrder (b : LockFreeOrderBook) (id : Nat) (price quantity : Int)
    (is_buy : Bool) (h : Consistent b) : Consistent (addOrder b id price quantity is_buy).1 := by
  by_cases hq : quantity ≤ 0
  · rw [addOrder_rejects b id price quantity is_buy hq]
    exact h
  · have hq' : 0 < quantity := by omega
    refine consistent_of_setLevel b _ is_buy (getPriceLevelIndex price) _ h
      (addOrder_levels_same b id price quantity is_buy hq')
      (addOrder_levels_other b id price quantity is_buy) ?_
    obtain ⟨h1, h2⟩ := h is_buy (getPriceLevelIndex price)
    constructor
    · show wrap64 _ = wrap64 _
      rw [h1, wrap64_add_left, sumQuantities_cons, Int.add_comm]
    · intro o ho
      rcases List.mem_cons.mp ho with rfl | ho
      · exact ⟨rfl, rfl, hq'⟩
      · exact h2 o ho

theorem consistent_cancelOrder (b : LockFreeOrderBook) (id : Nat) (h : Consistent b) :
    Consistent (cancelOrder b id).1 := by
  cases hc : (cancelOrder b id).2 with
  | false =>
    rw [cancelOrder_of_snd_false b id hc]
    exact h
  | true =>
    obtain ⟨s, i, f, r, -, hu, hl, ho⟩ := cancelOrder_true_spec b id hc
    obtain ⟨l1, l2, e1, e2, -, -⟩ := unlink_some_spec _ _ _ _ hu
    refine consistent_of_setLevel b _ s i _ h hl ho ?_
    obtain ⟨h1, h2⟩ := h s i
    constructor
    · show wrap64 _ = wrap64 _
      rw [h1, wrap64_sub_left, e1, e2, sumQuantities_append, sumQuantities_append,
        sumQuantities_cons]
      refine congrArg wrap64 ?_
      omega
    · intro o ho'
      apply h2
      rw [e1]
      rw [e2] at ho'
      rcases List.mem_append.mp ho' with hm | hm
      · exact List.mem_append_left _ hm
      · exact List.mem_append_right _ (List.mem_cons_of_mem _ hm)

theorem modifyOrder_true_pos (b : LockFreeOrderBook) (id : Nat) (q : Int)
    (h : (modifyOrder b id q).2 = true) : 0 < q := by
  by_contra hq
  have := (modifyOrder_snd_false_iff b id q).mpr (Or.inl (by omega))
  rw [this] at h
  cases h

theorem consistent_modifyOrder (b : LockFreeOrderBook) (id : Nat) (q : Int)
    (h : Consistent b) : Consistent (modifyOrder b id q).1 := by
  cases hc : (modifyOrder b id q).2 with
  | false =>
    rw [modifyOrder_of_snd_false b id q hc]
    exact h
  | true =>
    have hq := modifyOrder_true_pos b id q hc
    obtain ⟨s, i, old, r, -, hu, hl, ho⟩ := modifyOrder_true_spec b id q hc
    obtain ⟨l1, f, l2, e1, e2, -, hfq, -⟩ := setQuantity_some_spec _ _ _ _ _ hu
    refine consistent_of_setLevel b _ s i _ h hl ho ?_
    obtain ⟨h1, h2⟩ := h s i
    constructor
    · show wrap64 _ = wrap64 _
      rw [h1, wrap64_add_right, wrap64_add_left, e1, e2, sumQuantities_append,
        sumQuantities_append, sumQuantities_cons, sumQuantities_cons, ← hfq]
      refine congrArg wrap64 ?_
      show _ = _ + (q + _)
      omega
    · intro o ho'
      rw [e2] at ho'
      have hf := h2 f (by rw [e1]; simp)
      rcases List.mem_append.mp ho' with hm | hm
      · exact h2 o (by rw [e1]; exact List.mem_append_left _ hm)
      · rcases List.mem_cons.mp hm with rfl | hm
        · exact ⟨hf.1, hf.2.1, hq⟩
        · exact h2 o (by rw [e1]; exact List.mem_append_right _ (List.mem_cons_of_mem _ hm))

theorem consistent_step (b : LockFreeOrderBook) (op : Op) (h : Consistent b) :
    Consistent (step b op) := by
  cases op with
  | add id price quantity is_buy => exact consistent_addOrder b id price quantity is_buy h
  | cancel id => exact consistent_cancelOrder b id h
  | modify id q => exact consistent_modifyOrder b id q h

theorem consistent_foldl (ops : List Op) (b : LockFreeOrderBook) (h : Consistent b) :
    Consistent (ops.foldl step b) := by
  induction ops generalizing b with
  | nil => exact h
  | cons op t ih => exact ih (step b op) (consistent_step b op h)

theorem consistent_run (ops : List Op) : Consistent (run ops) :=
  consistent_foldl ops _ consistent_fresh

theorem filter_slotOrders_perm (lv : Nat → PriceLevel) (k : Nat) (hk : k < MAX_PRICE_LEVELS)
    (h : ∀ i, ∀ o ∈ (lv i).head, getPriceLevelIndex o.price = i) :
    ((slotOrders lv).filter (fun o => decide (getPriceLevelIndex o.price = k))).Perm
      (lv k).head := by
  have hp := (slotOrders_perm lv k hk).filter (fun o => decide (getPriceLevelIndex o.price = k))
  rw [List.filter_append] at hp
  have h1 : (lv k).head.filter (fun o => decide (getPriceLevelIndex o.price = k)) =
      (lv k).head :=
    List.filter_eq_self.mpr (fun o ho => by simp [h k o ho])
  have h2 : (otherSlotOrders lv k).filter (fun o => decide (getPriceLevelIndex o.price = k)) =
      [] := by
    rw [List.filter_eq_nil_iff]
    intro o ho
    obtain ⟨j, -, hj, hmem⟩ := (mem_otherSlotOrders lv k o).mp ho
    simp [h j o hmem, hj]
  rwa [h1, h2, List.append_nil] at hp

theorem sumQuantities_perm (l1 l2 : List Order) (h : l1.Perm l2) :
    sumQuantities l1 = sumQuantities l2 := by
  unfold sumQuantities
  exact (h.map (fun o => o.quantity)).sum_eq

theorem sumQuantities_nonneg (l : List Order) (h : ∀ o ∈ l, 0 < o.quantity) :
    0 ≤ sumQuantities l := by
  induction l with
  | nil => simp [sumQuantities]
  | cons c t ih =>
    rw [sumQuantities_cons]
    have h1 := h c (List.mem_cons_self _ _)
    have h2 := ih (fun o ho => h o (List.mem_cons_of_mem _ ho))
    omega

theorem sumQuantities_pos (l : List Order) (h : ∀ o ∈ l, 0 < o.quantity) (hne : l ≠ []) :
    0 < sumQuantities l := by
  cases l with
  | nil => exact absurd rfl hne
  | cons c t =>
    rw [sumQuantities_cons]
    have h1 := h c (List.mem_cons_self _ _)
    have h2 := sumQuantities_nonneg t (fun o ho => h o (List.mem_cons_of_mem _ ho))
    omega

theorem consistent_slot_sum (b : LockFreeOrderBook) (h : Consistent b) (p : Int)
    (is_buy : Bool) :
    sumQuantities ((liveOrders b is_buy).filter
      (fun o => decide (getPriceLevelIndex o.price = getPriceLevelIndex p))) =
    sumQuantities (b.levels is_buy (getPriceLevelIndex p)).head :=
  sumQuantities_perm _ _
    (filter_slotOrders_perm (b.levels is_buy) _ (getPriceLevelIndex_lt p)
      (fun i o ho => ((h is_buy i).2 o ho).1))

theorem consistent_getQuantityAtPrice (b : LockFreeOrderBook) (h : Consistent b) (p : Int)
    (is_buy : Bool) :
    getQuantityAtPrice b p is_buy =
      wrap64 (sumQuantities ((liveOrders b is_buy).filter
        (fun o => decide (getPriceLevelIndex o.price = getPriceLevelIndex p)))) := by
  rw [consistent_slot_sum b h p is_buy]
  exact (h is_buy (getPriceLevelIndex p)).1

theorem getPriceLevelIndex_eq_iff_of_inDomain (p q : Int) (hp0 : 0 ≤ p)
    (hp1 : p < MAX_PRICE_LEVELS) (hq0 : 0 ≤ q) (hq1 : q < MAX_PRICE_LEVELS) :
    getPriceLevelIndex p = getPriceLevelIndex q ↔ p = q := by
  have h1 := getPriceLevelIndex_of_inDomain p hp0 hp1
  have h2 := getPriceLevelIndex_of_inDomain q hq0 hq1
  constructor
  · intro h
    rw [← h1, ← h2, h]
  · intro h
    rw [h]

/-! ## The scans of `updateBestPrices` -/

theorem level_steps (is_buy : Bool) (i : Nat) (l : PriceLevel) (hl : LevelOK is_buy i l)
    (hd : ∀ o ∈ l.head, 0 ≤ o.price ∧ o.price < MAX_PRICE_LEVELS)
    (hs : sumQuantities l.head ≤ INT64_MAX) :
    (∀ o ∈ l.head, o.price = i) ∧
    (l.head = [] → ∀ best, bidStep best l = best ∧ askStep best l = best) ∧
    (l.head ≠ [] → ∀ best,
      bidStep best l = (if (i : Int) > best then (i : Int) else best) ∧
      askStep best l = (if (i : Int) < best then (i : Int) else best)) := by
  have hprice : ∀ o ∈ l.head, o.price = i := by
    intro o ho
    have h1 := getPriceLevelIndex_of_inDomain o.price (hd o ho).1 (hd o ho).2
    rw [(hl.2 o ho).1] at h1
    exact h1.symm
  refine ⟨hprice, ?_, ?_⟩
  · intro hnil best
    unfold bidStep askStep
    rw [hnil]
    constructor <;> split <;> rfl
  · intro hne best
    have hpos := sumQuantities_pos l.head (fun o ho => (hl.2 o ho).2.2) hne
    have htot : l.total_quantity > 0 := by
      rw [hl.1, wrap64_of_inRange _ (by unfold INT64_MIN; omega) hs]
      exact hpos
    unfold bidStep askStep
    rw [if_pos htot, if_pos htot]
    cases hh : l.head with
    | nil => exact absurd hh hne
    | cons c t =>
      have hc : c.price = i := hprice c (by rw [hh]; exact List.mem_cons_self _ _)
      simp only [hc]
      exact ⟨trivial, trivial⟩

theorem foldl_bidStep_spec (lv : Nat → PriceLevel)
    (hl : ∀ i, i < MAX_PRICE_LEVELS → ∀ o ∈ (lv i).head, o.price = i)
    (hnil : ∀ i, i < MAX_PRICE_LEVELS → (lv i).head = [] → ∀ best, bidStep best (lv i) = best)
    (hcons : ∀ i, i < MAX_PRICE_LEVELS → (lv i).head ≠ [] → ∀ best,
      bidStep best (lv i) = (if (i : Int) > best then (i : Int) else best))
    (n : Nat) (hn : n ≤ MAX_PRICE_LEVELS) :
    (∀ i, i < n → ∀ o ∈ (lv i).head,
      o.price ≤ (List.range n).foldl (fun best i => bidStep best (lv i)) INT64_MIN) ∧
    (((List.range n).foldl (fun best i => bidStep best (lv i)) INT64_MIN = INT64_MIN ∧
        ∀ i, i < n → (lv i).head = []) ∨
      ∃ j, j < n ∧ ∃ o ∈ (lv j).head,
        o.price = (List.range n).foldl (fun best i => bidStep best (lv i)) INT64_MIN) := by
  induction n with
  | zero =>
    refine ⟨fun i hi => absurd hi (Nat.not_lt_zero i), Or.inl ⟨rfl, fun i hi => ?_⟩⟩
    exact absurd hi (Nat.not_lt_zero i)
  | succ n ih =>
    have hn' : n < MAX_PRICE_LEVELS := hn
    obtain ⟨ih1, ih2⟩ := ih (Nat.le_of_lt hn')
    rw [List.range_succ, List.foldl_append, List.foldl_cons, List.foldl_nil]
    generalize (List.range n).foldl (fun best i => bidStep best (lv i)) INT64_MIN = F at *
    by_cases he : (lv n).head = []
    · rw [hnil n hn' he]
      constructor
      · intro i hi o ho
        rcases Nat.lt_succ_iff_lt_or_eq.mp hi with h | h
        · exact ih1 i h o ho
        · subst h
          rw [he] at ho
          cases ho
      · rcases ih2 with ⟨h1, h2⟩ | ⟨j, hj, o, ho, hp⟩
        · refine Or.inl ⟨h1, fun i hi => ?_⟩
          rcases Nat.lt_succ_iff_lt_or_eq.mp hi with h | h
          · exact h2 i h
          · subst h
            exact he
        · exact Or.inr ⟨j, Nat.lt_succ_of_lt hj, o, ho, hp⟩
    · rw [hcons n hn' he]
      obtain ⟨c, hc⟩ := List.exists_mem_of_ne_nil _ he
      have hcp := hl n hn' c hc
      constructor
      · intro i hi o ho
        rcases Nat.lt_succ_iff_lt_or_eq.mp hi with h | h
        · have := ih1 i h o ho
          split <;> omega
        · subst h
          have := hl i hn' o ho
          split <;> omega
      · by_cases hgt : (n : Int) > F
        · rw [if_pos hgt]
          exact Or.inr ⟨n, Nat.lt_succ_self n, c, hc, hcp⟩
        · rw [if_neg hgt]
          rcases ih2 with ⟨h1, -⟩ | ⟨j, hj, o, ho, hp⟩
          · exfalso
            unfold INT64_MIN at h1
            omega
          · exact Or.inr ⟨j, Nat.lt_succ_of_lt hj, o, ho, hp⟩

theorem foldl_askStep_spec (lv : Nat → PriceLevel)
    (hl : ∀ i, i < MAX_PRICE_LEVELS → ∀ o ∈ (lv i).head, o.price = i)
    (hnil : ∀ i, i < MAX_PRICE_LEVELS → (lv i).head = [] → ∀ best, askStep best (lv i) = best)
    (hcons : ∀ i, i < MAX_PRICE_LEVELS → (lv i).head ≠ [] → ∀ best,
      askStep best (lv i) = (if (i : Int) < best then (i : Int) else best))
    (n : Nat) (hn : n ≤ MAX_PRICE_LEVELS) :
    (∀ i, i < n → ∀ o ∈ (lv i).head,
      (List.range n).foldl (fun best i => askStep best (lv i)) INT64_MAX ≤ o.price) ∧
    (((List.range n).foldl (fun best i => askStep best (lv i)) INT64_MAX = INT64_MAX ∧
        ∀ i, i < n → (lv i).head = []) ∨
      ∃ j, j < n ∧ ∃ o ∈ (lv j).head,
        o.price = (List.range n).foldl (fun best i => askStep best (lv i)) INT64_MAX) := by
  induction n with
  | zero =>
    refine ⟨fun i hi => absurd hi (Nat.not_lt_zero i), Or.inl ⟨rfl, fun i hi => ?_⟩⟩
    exact absurd hi (Nat.not_lt_zero i)
  | succ n ih =>
    have hn' : n < MAX_PRICE_LEVELS := hn
    have hnM : (n : Int) < 10000 := by
      have : n < 10000 := hn'
      omega
    obtain ⟨ih1, ih2⟩ := ih (Nat.le_of_lt hn')
    rw [List.range_succ, List.foldl_append, List.foldl_cons, List.foldl_nil]
    generalize (List.range n).foldl (fun best i => askStep best (lv i)) INT64_MAX = F at *
    by_cases he : (lv n).head = []
    · rw [hnil n hn' he]
      constructor
      · intro i hi o ho
        rcases Nat.lt_succ_iff_lt_or_eq.mp hi with h | h
        · exact ih1 i h o ho
        · subst h
          rw [he] at ho
          cases ho
      · rcases ih2 with ⟨h1, h2⟩ | ⟨j, hj, o, ho, hp⟩
        · refine Or.inl ⟨h1, fun i hi => ?_⟩
          rcases Nat.lt_succ_iff_lt_or_eq.mp hi with h | h
          · exact h2 i h
          · subst h
            exact he
        · exact Or.inr ⟨j, Nat.lt_succ_of_lt hj, o, ho, hp⟩
    · rw [hcons n hn' he]
      obtain ⟨c, hc⟩ := List.exists_mem_of_ne_nil _ he
      have hcp := hl n hn' c hc
      constructor
      · intro i hi o ho
        rcases Nat.lt_succ_iff_lt_or_eq.mp hi with h | h
        · have := ih1 i h o ho
          split <;> omega
        · subst h
          have := hl i hn' o ho
          split <;> omega
      · by_cases hgt : (n : Int) < F
        · rw [if_pos hgt]
          exact Or.inr ⟨n, Nat.lt_succ_self n, c, hc, hcp⟩
        · rw [if_neg hgt]
          rcases ih2 with ⟨h1, -⟩ | ⟨j, hj, o, ho, hp⟩
          · exfalso
            unfold INT64_MAX at h1
            omega
          · exact Or.inr ⟨j, Nat.lt_succ_of_lt hj, o, ho, hp⟩

/-! ## Best prices inside the price domain -/

theorem updateBestPrices_best_bid (b : LockFreeOrderBook) :
    (updateBestPrices b).best_bid_ =
      (List.range MAX_PRICE_LEVELS).foldl (fun best i => bidStep best (b.buy_levels_ i))
        INT64_MIN := by
  simp only [updateBestPrices]

theorem updateBestPrices_best_ask (b : LockFreeOrderBook) :
    (updateBestPrices b).best_ask_ =
      (List.range MAX_PRICE_LEVELS).foldl (fun best i => askStep best (b.sell_levels_ i))
        INT64_MAX := by
  simp only [updateBestPrices]

theorem slotOrders_eq_nil (lv : Nat → PriceLevel)
    (h : ∀ i, i < MAX_PRICE_LEVELS → (lv i).head = []) : slotOrders lv = [] := by
  rw [List.eq_nil_iff_forall_not_mem]
  intro o ho
  simp only [slotOrders, List.mem_flatMap, List.mem_range] at ho
  obtain ⟨i, hi, hmem⟩ := ho
  rw [h i hi] at hmem
  cases hmem

theorem mem_slotOrders (lv : Nat → PriceLevel) (o : Order) :
    o ∈ slotOrders lv ↔ ∃ i, i < MAX_PRICE_LEVELS ∧ o ∈ (lv i).head := by
  simp [slotOrders, List.mem_flatMap, List.mem_range]

theorem isBest_of_levels (b : LockFreeOrderBook) (hc : Consistent b) (hd : PricesInDomain b)
    (hs : SumsInRange b) :
    IsBestBid (liveOrders b true)
      ((List.range MAX_PRICE_LEVELS).foldl (fun best i => bidStep best (b.buy_levels_ i))
        INT64_MIN) ∧
    IsBestAsk (liveOrders b false)
      ((List.range MAX_PRICE_LEVELS).foldl (fun best i => askStep best (b.sell_levels_ i))
        INT64_MAX) := by
  have hb := fun i (hi : i < MAX_PRICE_LEVELS) =>
    level_steps true i (b.buy_levels_ i) (hc true i) (hd true i) (hs true i hi)
  have ha := fun i (hi : i < MAX_PRICE_LEVELS) =>
    level_steps false i (b.sell_levels_ i) (hc false i) (hd false i) (hs false i hi)
  obtain ⟨b1, b2⟩ := foldl_bidStep_spec b.buy_levels_ (fun i hi => (hb i hi).1)
    (fun i hi he best => ((hb i hi).2.1 he best).1)
    (fun i hi he best => ((hb i hi).2.2 he best).1) MAX_PRICE_LEVELS (Nat.le_refl _)
  obtain ⟨a1, a2⟩ := foldl_askStep_spec b.sell_levels_ (fun i hi => (ha i hi).1)
    (fun i hi he best => ((ha i hi).2.1 he best).2)
    (fun i hi he best => ((ha i hi).2.2 he best).2) MAX_PRICE_LEVELS (Nat.le_refl _)
  generalize (List.range MAX_PRICE_LEVELS).foldl (fun best i => bidStep best (b.buy_levels_ i))
    INT64_MIN = B at *
  generalize (List.range MAX_PRICE_LEVELS).foldl (fun best i => askStep best (b.sell_levels_ i))
    INT64_MAX = A at *
  have hlb : liveOrders b true = slotOrders b.buy_levels_ := by
    simp [liveOrders, LockFreeOrderBook.levels]
  have hla : liveOrders b false = slotOrders b.sell_levels_ := by
    simp [liveOrders, LockFreeOrderBook.levels]
  rw [hlb, hla]
  constructor
  · refine ⟨?_, ?_, ?_⟩
    · intro o ho
      obtain ⟨i, hi, hmem⟩ := (mem_slotOrders _ _).mp ho
      exact b1 i hi o hmem
    · intro hnil
      rcases b2 with ⟨h1, -⟩ | ⟨j, hj, o, ho, -⟩
      · exact h1
      · have : o ∈ slotOrders b.buy_levels_ := (mem_slotOrders _ _).mpr ⟨j, hj, ho⟩
        rw [hnil] at this
        cases this
    · intro hne
      rcases b2 with ⟨-, h2⟩ | ⟨j, hj, o, ho, hp⟩
      · exact absurd (slotOrders_eq_nil _ h2) hne
      · exact ⟨o, (mem_slotOrders _ _).mpr ⟨j, hj, ho⟩, hp⟩
  · refine ⟨?_, ?_, ?_⟩
    · intro o ho
      obtain ⟨i, hi, hmem⟩ := (mem_slotOrders _ _).mp ho
      exact a1 i hi o hmem
    · intro hnil
      rcases a2 with ⟨h1, -⟩ | ⟨j, hj, o, ho, -⟩
      · exact h1
      · have : o ∈ slotOrders b.sell_levels_ := (mem_slotOrders _ _).mpr ⟨j, hj, ho⟩
        rw [hnil] at this
        cases this
    · intro hne
      rcases a2 with ⟨-, h2⟩ | ⟨j, hj, o, ho, hp⟩
      · exact absurd (slotOrders_eq_nil _ h2) hne
      · exact ⟨o, (mem_slotOrders _ _).mpr ⟨j, hj, ho⟩, hp⟩

theorem cancelOrder_true_best (b : LockFreeOrderBook) (id : Nat)
    (h : (cancelOrder b id).2 = true) :
    (cancelOrder b id).1.best_bid_ =
      (List.range MAX_PRICE_LEVELS).foldl
        (fun best i => bidStep best ((cancelOrder b id).1.buy_levels_ i)) INT64_MIN ∧
    (cancelOrder b id).1.best_ask_ =
      (List.range MAX_PRICE_LEVELS).foldl
        (fun best i => askStep best ((cancelOrder b id).1.sell_levels_ i)) INT64_MAX := by
  unfold cancelOrder at h ⊢
  cases h1 : cancelInLevels b.buy_levels_ id (List.range MAX_PRICE_LEVELS) with
  | some lv =>
    simp only []
    exact ⟨updateBestPrices_best_bid _, updateBestPrices_best_ask _⟩
  | none =>
    cases h2 : cancelInLevels b.sell_levels_ id (List.range MAX_PRICE_LEVELS) with
    | some lv =>
      simp only []
      exact ⟨updateBestPrices_best_bid _, updateBestPrices_best_ask _⟩
    | none => simp [h1, h2] at h

theorem pricesInDomain_of_setLevel (b b' : LockFreeOrderBook) (is_buy : Bool) (i : Nat)
    (l : PriceLevel) (h : PricesInDomain b)
    (hs : b'.levels is_buy = setLevel (b.levels is_buy) i l)
    (ho : b'.levels (!is_buy) = b.levels (!is_buy))
    (hl : ∀ o ∈ l.head, 0 ≤ o.price ∧ o.price < MAX_PRICE_LEVELS) :
    PricesInDomain b' := by
  intro s j
  by_cases hsb : s = is_buy
  · subst hsb
    rw [hs]
    by_cases hj : j = i
    · subst hj
      rw [setLevel_same]
      exact hl
    · rw [setLevel_other _ _ _ _ hj]
      exact h s j
  · have hs' : s = !is_buy := by cases s <;> cases is_buy <;> simp_all
    subst hs'
    rw [ho]
    exact h _ j

theorem liveOrders_addOrder_perm (b : LockFreeOrderBook) (id : Nat) (price quantity : Int)
    (is_buy : Bool) (hq : 0 < quantity) :
    (liveOrders (addOrder b id price quantity is_buy).1 is_buy).Perm
      (⟨id, price, quantity, is_buy⟩ :: liveOrders b is_buy) := by
  have hk := getPriceLevelIndex_lt price
  unfold liveOrders
  rw [addOrder_levels_same b id price quantity is_buy hq, pushOrder]
  refine (slotOrders_setLevel_perm _ _ _ hk).trans ?_
  exact List.Perm.cons _ (slotOrders_perm _ _ hk).symm

theorem liveOrders_addOrder_other (b : LockFreeOrderBook) (id : Nat) (price quantity : Int)
    (is_buy : Bool) :
    liveOrders (addOrder b id price quantity is_buy).1 (!is_buy) = liveOrders b (!is_buy) := by
  unfold liveOrders
  rw [addOrder_levels_other]

theorem liveOrders_modifyOrder_prices (b : LockFreeOrderBook) (id : Nat) (q : Int)
    (is_buy : Bool) :
    ((liveOrders (modifyOrder b id q).1 is_buy).map (fun o => o.price)).Perm
      ((liveOrders b is_buy).map (fun o => o.price)) := by
  cases hc : (modifyOrder b id q).2 with
  | false =>
    rw [modifyOrder_of_snd_false b id q hc]
  | true =>
    obtain ⟨s, i, old, r, hi, hu, hl, ho⟩ := modifyOrder_true_spec b id q hc
    obtain ⟨l1, f, l2, e1, e2, -, -, -⟩ := setQuantity_some_spec _ _ _ _ _ hu
    unfold liveOrders
    by_cases hsb : is_buy = s
    · subst hsb
      rw [hl]
      refine ((slotOrders_setLevel_perm _ _ _ hi).map _).trans ?_
      refine List.Perm.trans ?_ ((slotOrders_perm _ _ hi).map _).symm
      rw [e1, e2]
      simp
    · have hs' : is_buy = !s := by cases s <;> cases is_buy <;> simp_all
      rw [hs', ho]

theorem isBestBid_of_prices (l1 l2 : List Order) (best : Int)
    (hp : (l2.map (fun o => o.price)).Perm (l1.map (fun o => o.price)))
    (h : IsBestBid l1 best) : IsBestBid l2 best := by
  have hmem : ∀ p, (∃ o ∈ l2, o.price = p) ↔ (∃ o ∈ l1, o.price = p) := by
    intro p
    have := @List.Perm.mem_iff _ p _ _ hp
    simpa [List.mem_map] using this
  obtain ⟨h1, h2, h3⟩ := h
  refine ⟨?_, ?_, ?_⟩
  · intro o ho
    obtain ⟨o', ho', hp'⟩ := (hmem o.price).mp ⟨o, ho, rfl⟩
    rw [← hp']
    exact h1 o' ho'
  · intro hnil
    apply h2
    rw [List.eq_nil_iff_forall_not_mem]
    intro o ho
    obtain ⟨o', ho', -⟩ := (hmem o.price).mpr ⟨o, ho, rfl⟩
    rw [hnil] at ho'
    cases ho'
  · intro hne
    obtain ⟨x, hx⟩ := List.exists_mem_of_ne_nil _ hne
    obtain ⟨x', hx', -⟩ := (hmem x.price).mp ⟨x, hx, rfl⟩
    obtain ⟨o, ho, hbest⟩ := h3 (List.ne_nil_of_mem hx')
    exact (hmem best).mpr ⟨o, ho, hbest⟩

theorem isBestAsk_of_prices (l1 l2 : List Order) (best : Int)
    (hp : (l2.map (fun o => o.price)).Perm (l1.map (fun o => o.price)))
    (h : IsBestAsk l1 best) : IsBestAsk l2 best := by
  have hmem : ∀ p, (∃ o ∈ l2, o.price = p) ↔ (∃ o ∈ l1, o.price = p) := by
    intro p
    have := @List.Perm.mem_iff _ p _ _ hp
    simpa [List.mem_map] using this
  obtain ⟨h1, h2, h3⟩ := h
  refine ⟨?_, ?_, ?_⟩
  · intro o ho
    obtain ⟨o', ho', hp'⟩ := (hmem o.price).mp ⟨o, ho, rfl⟩
    rw [← hp']
    exact h1 o' ho'
  · intro hnil
    apply h2
    rw [List.eq_nil_iff_forall_not_mem]
    intro o ho
    obtain ⟨o', ho', -⟩ := (hmem o.price).mpr ⟨o, ho, rfl⟩
    rw [hnil] at ho'
    cases ho'
  · intro hne
    obtain ⟨x, hx⟩ := List.exists_mem_of_ne_nil _ hne
    obtain ⟨x', hx', -⟩ := (hmem x.price).mp ⟨x, hx, rfl⟩
    obtain ⟨o, ho, hbest⟩ := h3 (List.ne_nil_of_mem hx')
    exact (hmem best).mpr ⟨o, ho, hbest⟩

theorem isBestBid_cons (live : List Order) (best : Int) (o : Order)
    (ho : INT64_MIN < o.price) (h : IsBestBid live best) :
    IsBestBid (o :: live) (if o.price > best then o.price else best) := by
  obtain ⟨h1, h2, h3⟩ := h
  refine ⟨?_, ?_, ?_⟩
  · intro x hx
    rcases List.mem_cons.mp hx with rfl | hx
    · split <;> omega
    · have := h1 x hx
      split <;> omega
  · intro hnil
    cases hnil
  · intro _
    by_cases hgt : o.price > best
    · rw [if_pos hgt]
      exact ⟨o, List.mem_cons_self _ _, rfl⟩
    · rw [if_neg hgt]
      by_cases hl : live = []
      · have := h2 hl
        omega
      · obtain ⟨x, hx, hp⟩ := h3 hl
        exact ⟨x, List.mem_cons_of_mem _ hx, hp⟩

theorem isBestAsk_cons (live : List Order) (best : Int) (o : Order)
    (ho : o.price < INT64_MAX) (h : IsBestAsk live best) :
    IsBestAsk (o :: live) (if o.price < best then o.price else best) := by
  obtain ⟨h1, h2, h3⟩ := h
  refine ⟨?_, ?_, ?_⟩
  · intro x hx
    rcases List.mem_cons.mp hx with rfl | hx
    · split <;> omega
    · have := h1 x hx
      split <;> omega
  · intro hnil
    cases hnil
  · intro _
    by_cases hgt : o.price < best
    · rw [if_pos hgt]
      exact ⟨o, List.mem_cons_self _ _, rfl⟩
    · rw [if_neg hgt]
      by_cases hl : live = []
      · have := h2 hl
        omega
      · obtain ⟨x, hx, hp⟩ := h3 hl
        exact ⟨x, List.mem_cons_of_mem _ hx, hp⟩

theorem addOrder_best (b : LockFreeOrderBook) (id : Nat) (price quantity : Int)
    (is_buy : Bool) (hq : 0 < quantity) :
    (addOrder b id price quantity is_buy).1.best_bid_ =
      (if is_buy = true ∧ price > b.best_bid_ then price else b.best_bid_) ∧
    (addOrder b id price quantity is_buy).1.best_ask_ =
      (if is_buy = false ∧ price < b.best_ask_ then price else b.best_ask_) := by
  have hq' : ¬ quantity ≤ 0 := by omega
  cases is_buy <;> simp [addOrder, hq']

theorem liveOrders_fresh (is_buy : Bool) : liveOrders LockFreeOrderBook.fresh is_buy = [] := by
  unfold liveOrders
  apply slotOrders_eq_nil
  intro i _
  cases is_buy <;> simp [LockFreeOrderBook.levels, LockFreeOrderBook.fresh]

theorem wellFormed_fresh : WellFormed LockFreeOrderBook.fresh := by
  refine ⟨consistent_fresh, ?_, ?_, ?_⟩
  · intro s i o ho
    cases s <;> simp [LockFreeOrderBook.levels, LockFreeOrderBook.fresh] at ho
  · rw [liveOrders_fresh]
    refine ⟨?_, ?_, ?_⟩
    · intro o ho
      cases ho
    · intro _
      rfl
    · intro hne
      exact absurd rfl hne
  · rw [liveOrders_fresh]
    refine ⟨?_, ?_, ?_⟩
    · intro o ho
      cases ho
    · intro _
      rfl
    · intro hne
      exact absurd rfl hne

theorem wellFormed_addOrder (b : LockFreeOrderBook) (id : Nat) (price quantity : Int)
    (is_buy : Bool) (h : WellFormed b) (hd0 : 0 ≤ price) (hd1 : price < MAX_PRICE_LEVELS) :
    WellFormed (addOrder b id price quantity is_buy).1 := by
  by_cases hq : quantity ≤ 0
  · rw [addOrder_rejects b id price quantity is_buy hq]
    exact h
  have hq' : 0 < quantity := by omega
  obtain ⟨hc, hp, hbid, hask⟩ := h
  have hlo : INT64_MIN < price := by unfold INT64_MIN; omega
  have hhi : price < INT64_MAX := by
    unfold MAX_PRICE_LEVELS at hd1
    unfold INT64_MAX
    omega
  obtain ⟨hb1, hb2⟩ := addOrder_best b id price quantity is_buy hq'
  have hperm := liveOrders_addOrder_perm b id price quantity is_buy hq'
  have hoth := liveOrders_addOrder_other b id price quantity is_buy
  refine ⟨consistent_addOrder b id price quantity is_buy hc, ?_, ?_, ?_⟩
  · refine pricesInDomain_of_setLevel b _ is_buy (getPriceLevelIndex price) _ hp
      (addOrder_levels_same b id price quantity is_buy hq')
      (addOrder_levels_other b id price quantity is_buy) ?_
    intro o ho
    rcases List.mem_cons.mp ho with rfl | ho
    · exact ⟨hd0, hd1⟩
    · exact hp is_buy _ o ho
  · cases is_buy with
    | true =>
      rw [hb1]
      simp only [true_and]
      exact isBestBid_of_prices _ _ _ (hperm.map _)
        (isBestBid_cons _ _ ⟨id, price, quantity, true⟩ hlo hbid)
    | false =>
      rw [hb1]
      simp only [Bool.false_eq_true, false_and, if_false]
      have : liveOrders (addOrder b id price quantity false).1 true = liveOrders b true := hoth
      rw [this]
      exact hbid
  · cases is_buy with
    | false =>
      rw [hb2]
      simp only [true_and]
      exact isBestAsk_of_prices _ _ _ (hperm.map _)
        (isBestAsk_cons _ _ ⟨id, price, quantity, false⟩ hhi hask)
    | true =>
      rw [hb2]
      simp only [Bool.true_eq_false, false_and, if_false]
      have : liveOrders (addOrder b id price quantity true).1 false = liveOrders b false := hoth
      rw [this]
      exact hask

theorem wellFormed_modifyOrder (b : LockFreeOrderBook) (id : Nat) (q : Int)
    (h : WellFormed b) : WellFormed (modifyOrder b id q).1 := by
  obtain ⟨hc, hp, hbid, hask⟩ := h
  obtain ⟨hb1, hb2⟩ := modifyOrder_best b id q
  refine ⟨consistent_modifyOrder b id q hc, ?_, ?_, ?_⟩
  · cases hm : (modifyOrder b id q).2 with
    | false =>
      rw [modifyOrder_of_snd_false b id q hm]
      exact hp
    | true =>
      obtain ⟨s, i, old, r, -, hu, hl, ho⟩ := modifyOrder_true_spec b id q hm
      obtain ⟨l1, f, l2, e1, e2, -, -, -⟩ := setQuantity_some_spec _ _ _ _ _ hu
      refine pricesInDomain_of_setLevel b _ s i _ hp hl ho ?_
      intro o ho'
      rw [e2] at ho'
      rcases List.mem_append.mp ho' with hm' | hm'
      · exact hp s i o (by rw [e1]; exact List.mem_append_left _ hm')
      · rcases List.mem_cons.mp hm' with rfl | hm'
        · exact hp s i f (by rw [e1]; simp)
        · exact hp s i o (by rw [e1]; exact List.mem_append_right _ (List.mem_cons_of_mem _ hm'))
  · rw [hb1]
    exact isBestBid_of_prices _ _ _ (liveOrders_modifyOrder_prices b id q true) hbid
  · rw [hb2]
    exact isBestAsk_of_prices _ _ _ (liveOrders_modifyOrder_prices b id q false) hask

theorem wellFormed_cancelOrder (b : LockFreeOrderBook) (id : Nat) (h : WellFormed b)
    (hs : SumsInRange (cancelOrder b id).1) : WellFormed (cancelOrder b id).1 := by
  cases hm : (cancelOrder b id).2 with
  | false =>
    rw [cancelOrder_of_snd_false b id hm]
    exact h
  | true =>
    obtain ⟨hc, hp, -, -⟩ := h
    have hc' := consistent_cancelOrder b id hc
    have hp' : PricesInDomain (cancelOrder b id).1 := by
      obtain ⟨s, i, f, r, -, hu, hl, ho⟩ := cancelOrder_true_spec b id hm
      obtain ⟨l1, l2, e1, e2, -, -⟩ := unlink_some_spec _ _ _ _ hu
      refine pricesInDomain_of_setLevel b _ s i _ hp hl ho ?_
      intro o ho'
      rw [e2] at ho'
      rcases List.mem_append.mp ho' with hm' | hm'
      · exact hp s i o (by rw [e1]; exact List.mem_append_left _ hm')
      · exact hp s i o (by rw [e1]; exact List.mem_append_right _ (List.mem_cons_of_mem _ hm'))
    obtain ⟨hb1, hb2⟩ := cancelOrder_true_best b id hm
    obtain ⟨g1, g2⟩ := isBest_of_levels (cancelOrder b id).1 hc' hp' hs
    rw [← hb1] at g1
    rw [← hb2] at g2
    exact ⟨hc', hp', g1, g2⟩

theorem wellFormed_step (b : LockFreeOrderBook) (op : Op) (h : WellFormed b)
    (hd : op.InDomain) (hs : SumsInRange (step b op)) : WellFormed (step b op) := by
  cases op with
  | add id price quantity is_buy =>
    exact wellFormed_addOrder b id price quantity is_buy h hd.1 hd.2
  | cancel id => exact wellFormed_cancelOrder b id h hs
  | modify id q => exact wellFormed_modifyOrder b id q h

theorem wellFormed_foldl (ops : List Op) (b : LockFreeOrderBook) (h : WellFormed b)
    (ht : TraceInRange b ops) : WellFormed (ops.foldl step b) := by
  induction ops generalizing b with
  | nil => exact h
  | cons op t ih =>
    obtain ⟨hd, hs, ht'⟩ := ht
    exact ih (step b op) (wellFormed_step b op h hd hs) ht'

/-! ## Quantity sums in the example books -/

theorem sumsInRange_fresh : SumsInRange LockFreeOrderBook.fresh := by
  intro s i _
  cases s <;> simp [LockFreeOrderBook.levels, LockFreeOrderBook.fresh, sumQuantities, INT64_MAX]

theorem sumsInRange_of_setLevel (b b' : LockFreeOrderBook) (is_buy : Bool) (i : Nat)
    (l : PriceLevel) (h : SumsInRange b)
    (hs : b'.levels is_buy = setLevel (b.levels is_buy) i l)
    (ho : b'.levels (!is_buy) = b.levels (!is_buy))
    (hl : sumQuantities l.head ≤ INT64_MAX) : SumsInRange b' := by
  intro s j hj
  by_cases hsb : s = is_buy
  · subst hsb
    rw [hs]
    by_cases hji : j = i
    · subst hji
      rw [setLevel_same]
      exact hl
    · rw [setLevel_other _ _ _ _ hji]
      exact h s j hj
  · have hs' : s = !is_buy := by cases s <;> cases is_buy <;> simp_all
    subst hs'
    rw [ho]
    exact h _ j hj

theorem sumsInRange_addOrder (b : LockFreeOrderBook) (id : Nat) (price quantity : Int)
    (is_buy : Bool) (h : SumsInRange b)
    (hslot : sumQuantities (b.levels is_buy (getPriceLevelIndex price)).head + quantity
      ≤ INT64_MAX) :
    SumsInRange (addOrder b id price quantity is_buy).1 := by
  by_cases hq : quantity ≤ 0
  · rw [addOrder_rejects b id price quantity is_buy hq]
    exact h
  have hq' : 0 < quantity := by omega
  refine sumsInRange_of_setLevel b _ is_buy (getPriceLevelIndex price) _ h
    (addOrder_levels_same b id price quantity is_buy hq')
    (addOrder_levels_other b id price quantity is_buy) ?_
  show sumQuantities (_ :: _) ≤ _
  rw [sumQuantities_cons]
  show quantity + _ ≤ _
  omega

theorem sumsInRange_cancelOrder (b : LockFreeOrderBook) (id : Nat) (hc : Consistent b)
    (h : SumsInRange b) : SumsInRange (cancelOrder b id).1 := by
  cases hm : (cancelOrder b id).2 with
  | false =>
    rw [cancelOrder_of_snd_false b id hm]
    exact h
  | true =>
    obtain ⟨s, i, f, r, hi, hu, hl, ho⟩ := cancelOrder_true_spec b id hm
    obtain ⟨l1, l2, e1, e2, -, -⟩ := unlink_some_spec _ _ _ _ hu
    refine sumsInRange_of_setLevel b _ s i _ h hl ho ?_
    have h1 := h s i hi
    have hf : 0 < f.quantity := ((hc s i).2 f (by rw [e1]; simp)).2.2
    rw [e1, sumQuantities_append, sumQuantities_cons] at h1
    show sumQuantities r ≤ _
    rw [e2, sumQuantities_append]
    omega

theorem traceInRange_scenarioD :
    TraceInRange LockFreeOrderBook.fresh
      [.add 1 100 10 true, .add 2 101 20 true, .add 3 102 15 false, .add 4 103 25 false,
        .cancel 2] := by
  have s0 := sumsInRange_fresh
  have s1 := sumsInRange_addOrder _ 1 100 10 true s0 (by decide)
  have s2 := sumsInRange_addOrder _ 2 101 20 true s1 (by decide)
  have s3 := sumsInRange_addOrder _ 3 102 15 false s2 (by decide)
  have s4 := sumsInRange_addOrder _ 4 103 25 false s3 (by decide)
  have c4 := consistent_run
    [.add 1 100 10 true, .add 2 101 20 true, .add 3 102 15 false, .add 4 103 25 false]
  have s5 := sumsInRange_cancelOrder _ 2 c4 s4
  have d : ∀ (p : Int), 0 ≤ p → p < 10000 → 0 ≤ p ∧ p < MAX_PRICE_LEVELS := by
    intro p h0 h1
    unfold MAX_PRICE_LEVELS
    omega
  exact And.intro (d 100 (by decide) (by decide)) (And.intro s1
    (And.intro (d 101 (by decide) (by decide)) (And.intro s2
    (And.intro (d 102 (by decide) (by decide)) (And.intro s3
    (And.intro (d 103 (by decide) (by decide)) (And.intro s4
    (And.intro trivial (And.intro s5 trivial)))))))))

/-! ## Identifiers in the example books -/

theorem countId_fresh (id : Nat) : countId LockFreeOrderBook.fresh id = 0 := by
  rw [countId_eq_zero_iff]
  intro o ho
  rw [mem_allLive] at ho
  obtain ⟨s, i, -, hmem⟩ := ho
  cases s <;> simp [LockFreeOrderBook.levels, LockFreeOrderBook.fresh] at hmem

theorem countId_scenarioA (id : Nat) :
    countId scenarioA id =
      (if 1 = id then 1 else 0) + (if 2 = id then 1 else 0) + (if 3 = id then 1 else 0) +
        (if 4 = id then 1 else 0) := by
  show countId (addOrder (addOrder (addOrder (addOrder LockFreeOrderBook.fresh
    1 100 10 true).1 2 101 20 true).1 3 102 15 false).1 4 103 25 false).1 id = _
  rw [countId_addOrder _ _ _ _ _ (by decide), countId_addOrder _ _ _ _ _ (by decide),
    countId_addOrder _ _ _ _ _ (by decide), countId_addOrder _ _ _ _ _ (by decide),
    countId_fresh]
  omega

/-! ## An identifier carried by exactly one live order -/

theorem unique_location (b : LockFreeOrderBook) (o x : Order) (is_buy : Bool) (i : Nat)
    (ho : o ∈ (b.levels o.is_buy (getPriceLevelIndex o.price)).head)
    (huniq : countId b o.id = 1) (hi : i < MAX_PRICE_LEVELS)
    (hx : x ∈ (b.levels is_buy i).head) (hid : x.id = o.id) :
    is_buy = o.is_buy ∧ i = getPriceLevelIndex o.price := by
  have hk := getPriceLevelIndex_lt o.price
  have hc := countId_eq_side b o.id o.is_buy
  rw [countP_slotOrders _ _ _ hk, huniq] at hc
  have h1 : 0 < (b.levels o.is_buy (getPriceLevelIndex o.price)).head.countP
      (fun y => decide (y.id = o.id)) :=
    List.countP_pos_iff.mpr ⟨o, ho, by simp⟩
  have hs : is_buy = o.is_buy := by
    by_contra hne
    have hs' : is_buy = !o.is_buy := by
      cases is_buy <;> cases hb : o.is_buy <;> simp_all
    have h2 : 0 < (slotOrders (b.levels (!o.is_buy))).countP
        (fun y => decide (y.id = o.id)) := by
      refine List.countP_pos_iff.mpr ⟨x, ?_, by simp [hid]⟩
      have := (mem_liveOrders b is_buy x).mpr ⟨i, hi, hx⟩
      rwa [liveOrders, hs'] at this
    omega
  refine ⟨hs, ?_⟩
  by_contra hne
  have h2 : 0 < (otherSlotOrders (b.levels o.is_buy) (getPriceLevelIndex o.price)).countP
      (fun y => decide (y.id = o.id)) := by
    refine List.countP_pos_iff.mpr ⟨x, ?_, by simp [hid]⟩
    rw [mem_otherSlotOrders]
    exact ⟨i, hi, hne, hs ▸ hx⟩
  omega

theorem unique_in_slot (b : LockFreeOrderBook) (o : Order)
    (ho : o ∈ (b.levels o.is_buy (getPriceLevelIndex o.price)).head)
    (huniq : countId b o.id = 1) :
    (b.levels o.is_buy (getPriceLevelIndex o.price)).head.countP
      (fun y => decide (y.id = o.id)) = 1 := by
  have hk := getPriceLevelIndex_lt o.price
  have hc := countId_eq_side b o.id o.is_buy
  rw [countP_slotOrders _ _ _ hk, huniq] at hc
  have h1 : 0 < (b.levels o.is_buy (getPriceLevelIndex o.price)).head.countP
      (fun y => decide (y.id = o.id)) :=
    List.countP_pos_iff.mpr ⟨o, ho, by simp⟩
  omega

theorem split_unique (o f : Order) (l1 l2 : List Order) (hf : f.id = o.id)
    (h1 : ∀ y ∈ l1, y.id ≠ o.id) (ho : o ∈ l1 ++ f :: l2)
    (hc : (l1 ++ f :: l2).countP (fun y => decide (y.id = o.id)) = 1) :
    f = o ∧ ∀ y ∈ l2, y.id ≠ o.id := by
  simp only [List.countP_append, List.countP_cons, hf, decide_True, if_true] at hc
  have h2 : l2.countP (fun y => decide (y.id = o.id)) = 0 := by omega
  rw [List.countP_eq_zero] at h2
  have h2' : ∀ y ∈ l2, y.id ≠ o.id := fun y hy => by simpa using h2 y hy
  refine ⟨?_, h2'⟩
  rcases List.mem_append.mp ho with h | h
  · exact absurd rfl (h1 o h)
  · rcases List.mem_cons.mp h with h | h
    · exact h.symm
    · exact absurd rfl (h2' o h)

/-! ## Claims on duplicate identifiers -/

/-- C5 fails: after `addOrder(1, 100, 10, buy)` on a fresh book order `1` is
live, yet `addOrder(1, 105, 7, sell)` returns `true` and the sell aggregate at
`105` changes from `0` to `7`. -/
theorem addOrder_duplicate_id_accepted :
    (⟨1, 100, 10, true⟩ : Order) ∈
      ((addOrder LockFreeOrderBook.fresh 1 100 10 true).1.levels true 100).head ∧
    (addOrder (addOrder LockFreeOrderBook.fresh 1 100 10 true).1 1 105 7 false).2 = true ∧
    getQuantityAtPrice (addOrder LockFreeOrderBook.fresh 1 100 10 true).1 105 false = 0 ∧
    getQuantityAtPrice
      (addOrder (addOrder LockFreeOrderBook.fresh 1 100 10 true).1 1 105 7 false).1
      105 false = 7 := by
  decide

/-- C5 as amended: when some live order already carries `id`, `addOrder`
with a positive quantity still returns `true`; every order live before is
still live, the new order is live on its side, and the number of live orders
carrying `id` has grown by one. -/
theorem addOrder_duplicate_id (b : LockFreeOrderBook) (id : Nat) (price quantity : Int)
    (is_buy : Bool) (hlive : ∃ o ∈ allLive b, o.id = id) (hq : 0 < quantity) :
    (addOrder b id price quantity is_buy).2 = true ∧
    (∀ o ∈ allLive b, o ∈ allLive (addOrder b id price quantity is_buy).1) ∧
    (⟨id, price, quantity, is_buy⟩ : Order) ∈
      liveOrders (addOrder b id price quantity is_buy).1 is_buy ∧
    countId (addOrder b id price quantity is_buy).1 id = countId b id + 1 ∧
    2 ≤ countId (addOrder b id price quantity is_buy).1 id := by
  have hcount : countId (addOrder b id price quantity is_buy).1 id = countId b id + 1 := by
    rw [countId_addOrder b id price quantity is_buy hq id]
    simp
  have hpos : 0 < countId b id := by
    obtain ⟨o, ho, hid⟩ := hlive
    exact List.countP_pos_iff.mpr ⟨o, ho, by simp [hid]⟩
  refine ⟨addOrder_accepts b id price quantity is_buy hq, ?_, ?_, hcount, by omega⟩
  · intro o ho
    rw [mem_allLive] at ho ⊢
    obtain ⟨s, i, hi, hmem⟩ := ho
    refine ⟨s, i, hi, ?_⟩
    by_cases hs : s = is_buy
    · subst hs
      rw [addOrder_levels_same b id price quantity s hq]
      by_cases hidx : i = getPriceLevelIndex price
      · subst hidx
        simp [pushOrder, setLevel, hmem]
      · simp [pushOrder, setLevel, hidx, hmem]
    · have hs' : s = !is_buy := by cases s <;> cases is_buy <;> simp_all
      rw [hs', addOrder_levels_other]
      exact hs' ▸ hmem
  · rw [mem_liveOrders]
    refine ⟨getPriceLevelIndex price, getPriceLevelIndex_lt price, ?_⟩
    rw [addOrder_levels_same b id price quantity is_buy hq]
    simp [pushOrder, setLevel]

/-- C5 as amended, on Scenario A: id `2` is live, and adding a second order
`2` (a sell at `102`) is accepted. -/
theorem addOrder_duplicate_id_witness :
    (∃ o ∈ allLive scenarioA, o.id = 2) ∧
    (addOrder scenarioA 2 102 5 false).2 = true ∧
    2 ≤ countId (addOrder scenarioA 2 102 5 false).1 2 := by
  have hlive : ∃ o ∈ allLive scenarioA, o.id = 2 :=
    ⟨⟨2, 101, 20, true⟩,
      (mem_allLive scenarioA _).mpr ⟨true, 101, by decide, by decide⟩, rfl⟩
  have h := addOrder_duplicate_id scenarioA 2 102 5 false hlive (by decide)
  exact ⟨hlive, h.1, h.2.2.2.2⟩

/-- C8 fails: on the book holding two buy orders with id `1` (at `100` and
at `105`), `cancelOrder(1)` returns `true` and a second `cancelOrder(1)`
returns `true` again, changing the buy aggregate at `105` from `7` to `0` and
the best bid from `105` to the empty sentinel. -/
theorem cancelOrder_twice_succeeds :
    (cancelOrder duplicateBook 1).2 = true ∧
    (cancelOrder (cancelOrder duplicateBook 1).1 1).2 = true ∧
    getQuantityAtPrice (cancelOrder duplicateBook 1).1 105 true = 7 ∧
    getQuantityAtPrice (cancelOrder (cancelOrder duplicateBook 1).1 1).1 105 true = 0 := by
  decide!

/-- C8 as amended: if `cancelOrder(id)` returns `true` and `id` was carried
by no more than one live order, then a second `cancelOrder(id)` returns
`false` and leaves the whole book (lists, aggregates, best prices) exactly as
the first cancel left it. -/
theorem cancelOrder_twice (b : LockFreeOrderBook) (id : Nat)
    (hfirst : (cancelOrder b id).2 = true) (huniq : countId b id ≤ 1) :
    cancelOrder (cancelOrder b id).1 id = ((cancelOrder b id).1, false) := by
  have hc := countId_cancelOrder b id hfirst
  have h0 : countId (cancelOrder b id).1 id = 0 := by omega
  exact cancelOrder_of_snd_false _ _
    ((cancelOrder_snd_false_iff _ _).mpr ((countId_eq_zero_iff _ _).mp h0))

/-- C8 as amended, on Scenario A: order `2` is cancelled once, the second
cancel fails and changes nothing. -/
theorem cancelOrder_twice_witness :
    (cancelOrder scenarioA 2).2 = true ∧ countId scenarioA 2 ≤ 1 ∧
    cancelOrder (cancelOrder scenarioA 2).1 2 = ((cancelOrder scenarioA 2).1, false) :=
  have h1 : (cancelOrder scenarioA 2).2 = true := by decide!
  have h2 : countId scenarioA 2 ≤ 1 := by rw [countId_scenarioA]; decide
  ⟨h1, h2, cancelOrder_twice scenarioA 2 h1 h2⟩

/-! ## Claim on the quantity change of `modifyOrder` -/

theorem countId_nearMaxBook : countId nearMaxBook 1 = 1 := by
  show countId (addOrder (addOrder LockFreeOrderBook.fresh 1 100 1 true).1
    2 100 9223372036854775806 true).1 1 = 1
  rw [countId_addOrder _ _ _ _ _ (by decide), countId_addOrder _ _ _ _ _ (by decide),
    countId_fresh]
  decide

/-- C10 fails: with buy orders `1` (quantity `1`) and `2` (quantity
`2 ^ 63 - 2`) live at price `100`, order `1` is the only live order with its
id and `getQuantityAtPrice(100, buy)` is `2 ^ 63 - 1`; `modifyOrder(1, 2)`
returns `true` and the aggregate becomes `-2 ^ 63`, not the value before plus
`2 - 1`. -/
theorem modifyOrder_aggregate_wraps :
    (⟨1, 100, 1, true⟩ : Order) ∈ (nearMaxBook.levels true (getPriceLevelIndex 100)).head ∧
    countId nearMaxBook 1 = 1 ∧
    (modifyOrder nearMaxBook 1 2).2 = true ∧
    getQuantityAtPrice nearMaxBook 100 true = 9223372036854775807 ∧
    getQuantityAtPrice (modifyOrder nearMaxBook 1 2).1 100 true = -9223372036854775808 ∧
    getQuantityAtPrice (modifyOrder nearMaxBook 1 2).1 100 true ≠
      getQuantityAtPrice nearMaxBook 100 true + (2 - 1) := by
  refine ⟨by decide, countId_nearMaxBook, by decide!, by decide, by decide!, by decide!⟩

/-- C10 as amended: let `o` be a live order resting in the slot of its price
on its side, the only live order with its id, and let `new_quantity > 0`.
Then `modifyOrder(o.id, new_quantity)` returns `true`; afterwards the order is
live with quantity `new_quantity` (and is the only live order with that id),
and `getQuantityAtPrice(o.price, o.side)` is the 64-bit wrap of its value
before the call plus `new_quantity - o.quantity`, which is exactly that sum
whenever the sum fits in `int64_t`. -/
theorem modifyOrder_updates_aggregate (b : LockFreeOrderBook) (o : Order)
    (new_quantity : Int)
    (ho : o ∈ (b.levels o.is_buy (getPriceLevelIndex o.price)).head)
    (huniq : countId b o.id = 1) (hq : 0 < new_quantity) :
    (modifyOrder b o.id new_quantity).2 = true ∧
    ({ o with quantity := new_quantity } : Order) ∈
      liveOrders (modifyOrder b o.id new_quantity).1 o.is_buy ∧
    (∀ x ∈ allLive (modifyOrder b o.id new_quantity).1, x.id = o.id →
      x = { o with quantity := new_quantity }) ∧
    getQuantityAtPrice (modifyOrder b o.id new_quantity).1 o.price o.is_buy =
      wrap64 (getQuantityAtPrice b o.price o.is_buy + (new_quantity - o.quantity)) ∧
    (INT64_MIN ≤ getQuantityAtPrice b o.price o.is_buy + (new_quantity - o.quantity) →
      getQuantityAtPrice b o.price o.is_buy + (new_quantity - o.quantity) ≤ INT64_MAX →
      getQuantityAtPrice (modifyOrder b o.id new_quantity).1 o.price o.is_buy =
        getQuantityAtPrice b o.price o.is_buy + (new_quantity - o.quantity)) := by
  have hk := getPriceLevelIndex_lt o.price
  have htrue : (modifyOrder b o.id new_quantity).2 = true := by
    cases hm : (modifyOrder b o.id new_quantity).2 with
    | true => rfl
    | false =>
      rcases (modifyOrder_snd_false_iff b o.id new_quantity).mp hm with h | h
      · omega
      · exact absurd rfl (h o ((mem_allLive b o).mpr ⟨o.is_buy, _, hk, ho⟩))
  obtain ⟨s, i, old, rest, hi, hset, hlv, hoth⟩ := modifyOrder_true_spec b o.id new_quantity htrue
  obtain ⟨l1, f, l2, e1, e2, hfid, hfq, hl1⟩ := setQuantity_some_spec _ _ _ _ _ hset
  have hfmem : f ∈ (b.levels s i).head := by rw [e1]; simp
  obtain ⟨hs, hik⟩ := unique_location b o f s i ho huniq hi hfmem hfid
  subst hs hik
  have hcnt := unique_in_slot b o ho huniq
  rw [e1] at hcnt ho
  obtain ⟨hfo, hl2⟩ := split_unique o f l1 l2 hfid hl1 ho hcnt
  subst hfo
  have hslot : ((modifyOrder b f.id new_quantity).1.levels f.is_buy
      (getPriceLevelIndex f.price)) =
      ⟨rest, wrap64 ((b.levels f.is_buy (getPriceLevelIndex f.price)).total_quantity +
        wrap64 (new_quantity - old))⟩ := by
    rw [hlv, setLevel_same]
  have hqty : getQuantityAtPrice (modifyOrder b f.id new_quantity).1 f.price f.is_buy =
      wrap64 (getQuantityAtPrice b f.price f.is_buy + (new_quantity - f.quantity)) := by
    unfold getQuantityAtPrice
    rw [hslot, hfq]
    exact wrap64_add_right _ _
  refine ⟨htrue, ?_, ?_, hqty, ?_⟩
  · rw [mem_liveOrders]
    refine ⟨_, hk, ?_⟩
    rw [hslot, e2]
    simp
  · intro x hx hxid
    rw [mem_allLive] at hx
    obtain ⟨s', j, hj, hxmem⟩ := hx
    by_cases hloc : s' = f.is_buy ∧ j = getPriceLevelIndex f.price
    · obtain ⟨h1, h2⟩ := hloc
      subst h1 h2
      rw [hslot, e2] at hxmem
      rcases List.mem_append.mp hxmem with h | h
      · exact absurd hxid (hl1 x h)
      · rcases List.mem_cons.mp h with h | h
        · exact h
        · exact absurd hxid (hl2 x h)
    · exfalso
      apply hloc
      have hold : x ∈ (b.levels s' j).head := by
        by_cases hs' : s' = f.is_buy
        · subst hs'
          have hj' : j ≠ getPriceLevelIndex f.price := fun h => hloc ⟨rfl, h⟩
          rwa [hlv, setLevel_other _ _ _ _ hj'] at hxmem
        · have hs'' : s' = !f.is_buy := by
            cases s' <;> cases hb : f.is_buy <;> simp_all
          rw [hs''] at hxmem ⊢
          rwa [hoth] at hxmem
      exact unique_location b f x s' j (by rw [e1]; simp) huniq hj hold hxid
  · intro h0 h1
    rw [hqty, wrap64_of_inRange _ h0 h1]

/-- C10 as amended, on Scenario A: `modifyOrder(2, 30)` returns `true` and
`getQuantityAtPrice(101, buy)` goes from `20` to `30`. -/
theorem modifyOrder_updates_aggregate_witness :
    (modifyOrder scenarioA 2 30).2 = true ∧
    getQuantityAtPrice scenarioA 101 true = 20 ∧
    getQuantityAtPrice (modifyOrder scenarioA 2 30).1 101 true = 30 := by
  have h := modifyOrder_updates_aggregate scenarioA ⟨2, 101, 20, true⟩ 30
    (by decide) (by rw [countId_scenarioA]; decide) (by decide)
  refine ⟨h.1, by decide, ?_⟩
  have h4 := h.2.2.2.2 (by decide) (by decide)
  rw [show getQuantityAtPrice scenarioA 101 true = 20 by decide] at h4
  exact h4

/-! ## Claim on the aggregate read by `getQuantityAtPrice` -/

/-- C1 fails: with buy orders at `100` (quantity `10`) and `10100` (quantity
`20`) live, `getQuantityAtPrice(100, buy)` is `30` while the orders at exactly
`100` sum to `10`, and `getQuantityAtPrice(20100, buy)` is `30` although no
live order has the price `20100`. -/
theorem getQuantityAtPrice_aliased :
    getQuantityAtPrice aliasBook 100 true = 30 ∧
    sumQuantities ((liveOrders aliasBook true).filter (fun o => decide (o.price = 100))) = 10 ∧
    getQuantityAtPrice aliasBook 20100 true = 30 ∧
    (liveOrders aliasBook true).filter (fun o => decide (o.price = 20100)) = [] := by
  decide!

/-- C1 as amended: after every sequence of calls on a fresh book, for every
price `p` and side, `getQuantityAtPrice(p, side)` is the 64-bit sum of the
quantities of the live orders of that side whose price has the same slot as
`p`; it is `0` when no live order of that side shares the slot of `p`; and
when `p` and all live prices of that side lie in `0 .. MAX_PRICE_LEVELS - 1`
and the sum at `p` fits in `int64_t`, it is the sum of the quantities of the
live orders at exactly price `p`. -/
theorem getQuantityAtPrice_slot_sum (ops : List Op) (p : Int) (is_buy : Bool) :
    getQuantityAtPrice (run ops) p is_buy =
      wrap64 (sumQuantities ((liveOrders (run ops) is_buy).filter
        (fun o => decide (getPriceLevelIndex o.price = getPriceLevelIndex p)))) ∧
    ((∀ o ∈ liveOrders (run ops) is_buy,
        getPriceLevelIndex o.price ≠ getPriceLevelIndex p) →
      getQuantityAtPrice (run ops) p is_buy = 0) ∧
    (0 ≤ p → p < MAX_PRICE_LEVELS →
      (∀ o ∈ liveOrders (run ops) is_buy, 0 ≤ o.price ∧ o.price < MAX_PRICE_LEVELS) →
      sumQuantities ((liveOrders (run ops) is_buy).filter (fun o => decide (o.price = p)))
        ≤ INT64_MAX →
      getQuantityAtPrice (run ops) p is_buy =
        sumQuantities ((liveOrders (run ops) is_buy).filter
          (fun o => decide (o.price = p)))) := by
  have hc := consistent_run ops
  have hq := consistent_getQuantityAtPrice (run ops) hc p is_buy
  refine ⟨hq, ?_, ?_⟩
  · intro hnone
    rw [hq]
    have : (liveOrders (run ops) is_buy).filter
        (fun o => decide (getPriceLevelIndex o.price = getPriceLevelIndex p)) = [] := by
      rw [List.filter_eq_nil_iff]
      intro o ho
      simpa using hnone o ho
    rw [this]
    decide
  · intro hp0 hp1 hdom hfit
    have hfilter : (liveOrders (run ops) is_buy).filter
        (fun o => decide (getPriceLevelIndex o.price = getPriceLevelIndex p)) =
        (liveOrders (run ops) is_buy).filter (fun o => decide (o.price = p)) := by
      apply List.filter_congr
      intro o ho
      have hd := hdom o ho
      simp only [getPriceLevelIndex_eq_iff_of_inDomain o.price p hd.1 hd.2 hp0 hp1]
    rw [hq, hfilter]
    apply wrap64_of_inRange _ _ hfit
    have hnn : 0 ≤ sumQuantities ((liveOrders (run ops) is_buy).filter
        (fun o => decide (o.price = p))) := by
      apply sumQuantities_nonneg
      intro o ho
      have hmem := (List.mem_filter.mp ho).1
      obtain ⟨i, -, hi⟩ := (mem_liveOrders _ _ _).mp hmem
      exact ((hc is_buy i).2 o hi).2.2
    unfold INT64_MIN
    omega

/-- C1 as amended, on Scenario A: all live prices lie in the domain, so
`getQuantityAtPrice(101, buy)` is the sum `20` at exactly `101`. -/
theorem getQuantityAtPrice_slot_sum_witness :
    getQuantityAtPrice scenarioA 101 true = 20 ∧
    getQuantityAtPrice scenarioA 101 true =
      sumQuantities ((liveOrders scenarioA true).filter (fun o => decide (o.price = 101))) :=
  ⟨by decide,
    (getQuantityAtPrice_slot_sum
      [.add 1 100 10 true, .add 2 101 20 true, .add 3 102 15 false, .add 4 103 25 false]
      101 true).2.2 (by decide) (by decide) (by decide!) (by decide!)⟩

/-! ## Claim on the best prices -/

/-- C2 fails: after buy orders at `10100` and at `100` (same slot, the later
one at the head) and an add-and-cancel of a third order, `getBestBid()` is
`100` although the buy order at `10100` is still live. -/
theorem best_bid_stale :
    getBestBid staleBidBook = 100 ∧
    (⟨1, 10100, 10, true⟩ : Order) ∈ liveOrders staleBidBook true ∧
    ¬ IsBestBid (liveOrders staleBidBook true) (getBestBid staleBidBook) := by
  have h1 : getBestBid staleBidBook = 100 := by decide!
  have h2 : (⟨1, 10100, 10, true⟩ : Order) ∈ liveOrders staleBidBook true :=
    (mem_liveOrders _ _ _).mpr ⟨100, by decide, by decide!⟩
  refine ⟨h1, h2, ?_⟩
  intro h
  have h3 := h.1 _ h2
  rw [h1] at h3
  exact absurd h3 (by decide)

/-- C2 as amended: after every sequence of calls on a fresh book whose
`addOrder` prices all lie in `0 .. MAX_PRICE_LEVELS - 1` and after each of
which every slot's quantity sum fits in `int64_t`, `getBestBid()` is the
highest price among the live buy orders, or `INT64_MIN` if there is none,
and `getBestAsk()` is the lowest price among the live sell orders, or
`INT64_MAX` if there is none. -/
theorem best_prices_correct_in_domain (ops : List Op)
    (h : TraceInRange LockFreeOrderBook.fresh ops) :
    IsBestBid (liveOrders (run ops) true) (getBestBid (run ops)) ∧
    IsBestAsk (liveOrders (run ops) false) (getBestAsk (run ops)) := by
  have hw := wellFormed_foldl ops _ wellFormed_fresh h
  exact ⟨hw.2.2.1, hw.2.2.2⟩

/-- C2 as amended, on Scenario A followed by the cancel of its best bid:
the best bid is `100`, the price of the one buy order left, and the best ask
is `102`. -/
theorem best_prices_correct_in_domain_witness :
    IsBestBid (liveOrders scenarioD true) (getBestBid scenarioD) ∧
    IsBestAsk (liveOrders scenarioD false) (getBestAsk scenarioD) ∧
    getBestBid scenarioD = 100 ∧ getBestAsk scenarioD = 102 :=
  have h := best_prices_correct_in_domain _ traceInRange_scenarioD
  ⟨h.1, h.2, by decide!, by decide!⟩

/-! ## The failure claims on Scenario A -/

/-- C7 on Scenario A: no live order carries id `7`, so `cancelOrder(7)`
returns `false` and changes nothing; `cancelOrder(2)` returns `true`; and
after `addOrder(7, ...)` has returned `true`, `cancelOrder(7)` returns
`true`. -/
theorem cancelOrder_fails_iff_unknown_witness :
    (cancelOrder scenarioA 7).2 = false ∧ (cancelOrder scenarioA 7).1 = scenarioA ∧
    (cancelOrder scenarioA 2).2 = true ∧
    (cancelOrder (addOrder scenarioA 7 100 5 true).1 7).2 = true :=
  have h := cancelOrder_fails_iff_unknown scenarioA 7
  have hfail : (cancelOrder scenarioA 7).2 = false :=
    h.1.mpr ((countId_eq_zero_iff _ _).mp (by rw [countId_scenarioA]; decide))
  ⟨hfail, h.2.1 hfail, by decide!, h.2.2 100 5 true (by decide)⟩

/-- C9 on Scenario A: `modifyOrder(7, 5)` (unknown id) and `modifyOrder(2, 0)`
(invalid quantity) return `false` and change nothing, `modifyOrder(2, 30)`
returns `true`. -/
theorem modifyOrder_fails_iff_witness :
    (modifyOrder scenarioA 7 5).2 = false ∧ (modifyOrder scenarioA 7 5).1 = scenarioA ∧
    (modifyOrder scenarioA 2 0).2 = false ∧ (modifyOrder scenarioA 2 0).1 = scenarioA ∧
    (modifyOrder scenarioA 2 30).2 = true :=
  have h := modifyOrder_fails_iff scenarioA 7 5
  have h' := modifyOrder_fails_iff scenarioA 2 0
  have hfail : (modifyOrder scenarioA 7 5).2 = false :=
    h.1.mpr (Or.inr ((countId_eq_zero_iff _ _).mp (by rw [countId_scenarioA]; decide)))
  have hfail' : (modifyOrder scenarioA 2 0).2 = false := h'.1.mpr (Or.inl (by decide))
  ⟨hfail, h.2 hfail, hfail', h'.2 hfail', by decide!⟩

/-! ## The slot of a best price holds an order -/

theorem levels_true (b : LockFreeOrderBook) : b.levels true = b.buy_levels_ := by
  simp [LockFreeOrderBook.levels]

theorem levels_false (b : LockFreeOrderBook) : b.levels false = b.sell_levels_ := by
  simp [LockFreeOrderBook.levels]

theorem foldl_bidStep_head (lv : Nat → PriceLevel) (n : Nat) :
    (List.range n).foldl (fun best i => bidStep best (lv i)) INT64_MIN = INT64_MIN ∨
    ∃ i, i < n ∧ ∃ o t, (lv i).head = o :: t ∧
      o.price = (List.range n).foldl (fun best i => bidStep best (lv i)) INT64_MIN := by
  induction n with
  | zero => exact Or.inl rfl
  | succ n ih =>
    rw [List.range_succ, List.foldl_append, List.foldl_cons, List.foldl_nil]
    generalize (List.range n).foldl (fun best i => bidStep best (lv i)) INT64_MIN = F at *
    have hkeep : F = INT64_MIN ∨ ∃ i, i < n + 1 ∧ ∃ o t, (lv i).head = o :: t ∧ o.price = F := by
      rcases ih with h | ⟨i, hi, o, t, h1, h2⟩
      · exact Or.inl h
      · exact Or.inr ⟨i, Nat.lt_succ_of_lt hi, o, t, h1, h2⟩
    unfold bidStep
    split
    · cases hh : (lv n).head with
      | nil => exact hkeep
      | cons c t =>
        simp only []
        split
        · exact Or.inr ⟨n, Nat.lt_succ_self n, c, t, hh, rfl⟩
        · exact hkeep
    · exact hkeep

theorem foldl_askStep_head (lv : Nat → PriceLevel) (n : Nat) :
    (List.range n).foldl (fun best i => askStep best (lv i)) INT64_MAX = INT64_MAX ∨
    ∃ i, i < n ∧ ∃ o t, (lv i).head = o :: t ∧
      o.price = (List.range n).foldl (fun best i => askStep best (lv i)) INT64_MAX := by
  induction n with
  | zero => exact Or.inl rfl
  | succ n ih =>
    rw [List.range_succ, List.foldl_append, List.foldl_cons, List.foldl_nil]
    generalize (List.range n).foldl (fun best i => askStep best (lv i)) INT64_MAX = F at *
    have hkeep : F = INT64_MAX ∨ ∃ i, i < n + 1 ∧ ∃ o t, (lv i).head = o :: t ∧ o.price = F := by
      rcases ih with h | ⟨i, hi, o, t, h1, h2⟩
      · exact Or.inl h
      · exact Or.inr ⟨i, Nat.lt_succ_of_lt hi, o, t, h1, h2⟩
    unfold askStep
    split
    · cases hh : (lv n).head with
      | nil => exact hkeep
      | cons c t =>
        simp only []
        split
        · exact Or.inr ⟨n, Nat.lt_succ_self n, c, t, hh, rfl⟩
        · exact hkeep
    · exact hkeep

theorem bestSlotsLive_fresh : BestSlotsLive LockFreeOrderBook.fresh :=
  ⟨Or.inl rfl, Or.inl rfl⟩

theorem addOrder_keeps_nonempty (b : LockFreeOrderBook) (id : Nat) (price quantity : Int)
    (is_buy s : Bool) (j : Nat) (h : (b.levels s j).head ≠ []) :
    ((addOrder b id price quantity is_buy).1.levels s j).head ≠ [] := by
  by_cases hq : quantity ≤ 0
  · rw [addOrder_rejects b id price quantity is_buy hq]
    exact h
  have hq' : 0 < quantity := by omega
  by_cases hs : s = is_buy
  · subst hs
    rw [addOrder_levels_same b id price quantity s hq', pushOrder]
    by_cases hj : j = getPriceLevelIndex price
    · subst hj
      rw [setLevel_same]
      exact List.cons_ne_nil _ _
    · rw [setLevel_other _ _ _ _ hj]
      exact h
  · have hs' : s = !is_buy := by cases s <;> cases is_buy <;> simp_all
    rw [hs', addOrder_levels_other]
    exact hs' ▸ h

theorem addOrder_slot_nonempty (b : LockFreeOrderBook) (id : Nat) (price quantity : Int)
    (is_buy : Bool) (hq : 0 < quantity) :
    ((addOrder b id price quantity is_buy).1.levels is_buy (getPriceLevelIndex price)).head
      ≠ [] := by
  rw [addOrder_levels_same b id price quantity is_buy hq, pushOrder, setLevel_same]
  exact List.cons_ne_nil _ _

theorem bestSlotsLive_addOrder (b : LockFreeOrderBook) (id : Nat) (price quantity : Int)
    (is_buy : Bool) (h : BestSlotsLive b) :
    BestSlotsLive (addOrder b id price quantity is_buy).1 := by
  by_cases hq : quantity ≤ 0
  · rw [addOrder_rejects b id price quantity is_buy hq]
    exact h
  have hq' : 0 < quantity := by omega
  obtain ⟨hb, ha⟩ := h
  obtain ⟨h1, h2⟩ := addOrder_best b id price quantity is_buy hq'
  unfold BestSlotsLive
  rw [h1, h2]
  constructor
  · by_cases hc : is_buy = true ∧ price > b.best_bid_
    · rw [if_pos hc]
      right
      obtain ⟨e, -⟩ := hc
      subst e
      exact addOrder_slot_nonempty b id price quantity _ hq'
    · rw [if_neg hc]
      rcases hb with hb | hb
      · exact Or.inl hb
      · exact Or.inr (addOrder_keeps_nonempty b id price quantity is_buy true _ hb)
  · by_cases hc : is_buy = false ∧ price < b.best_ask_
    · rw [if_pos hc]
      right
      obtain ⟨e, -⟩ := hc
      subst e
      exact addOrder_slot_nonempty b id price quantity _ hq'
    · rw [if_neg hc]
      rcases ha with ha | ha
      · exact Or.inl ha
      · exact Or.inr (addOrder_keeps_nonempty b id price quantity is_buy false _ ha)

theorem modifyOrder_keeps_nonempty (b : LockFreeOrderBook) (id : Nat) (q : Int)
    (s : Bool) (j : Nat) (h : (b.levels s j).head ≠ []) :
    ((modifyOrder b id q).1.levels s j).head ≠ [] := by
  cases hm : (modifyOrder b id q).2 with
  | false =>
    rw [modifyOrder_of_snd_false b id q hm]
    exact h
  | true =>
    obtain ⟨s0, i, old, r, -, hu, hl, ho⟩ := modifyOrder_true_spec b id q hm
    obtain ⟨l1, f, l2, -, e2, -, -, -⟩ := setQuantity_some_spec _ _ _ _ _ hu
    by_cases hs : s = s0
    · subst hs
      rw [hl]
      by_cases hj : j = i
      · subst hj
        rw [setLevel_same]
        show r ≠ []
        rw [e2]
        simp
      · rw [setLevel_other _ _ _ _ hj]
        exact h
    · have hs' : s = !s0 := by cases s <;> cases s0 <;> simp_all
      rw [hs', ho]
      exact hs' ▸ h

theorem bestSlotsLive_modifyOrder (b : LockFreeOrderBook) (id : Nat) (q : Int)
    (h : BestSlotsLive b) : BestSlotsLive (modifyOrder b id q).1 := by
  obtain ⟨hb, ha⟩ := h
  obtain ⟨h1, h2⟩ := modifyOrder_best b id q
  unfold BestSlotsLive
  rw [h1, h2]
  constructor
  · rcases hb with hb | hb
    · exact Or.inl hb
    · exact Or.inr (modifyOrder_keeps_nonempty b id q true _ hb)
  · rcases ha with ha | ha
    · exact Or.inl ha
    · exact Or.inr (modifyOrder_keeps_nonempty b id q false _ ha)

theorem bestSlotsLive_cancelOrder (b : LockFreeOrderBook) (id : Nat) (hc : Consistent b)
    (h : BestSlotsLive b) : BestSlotsLive (cancelOrder b id).1 := by
  cases hm : (cancelOrder b id).2 with
  | false =>
    rw [cancelOrder_of_snd_false b id hm]
    exact h
  | true =>
    have hc' := consistent_cancelOrder b id hc
    obtain ⟨hb1, hb2⟩ := cancelOrder_true_best b id hm
    have fb := foldl_bidStep_head (cancelOrder b id).1.buy_levels_ MAX_PRICE_LEVELS
    have fa := foldl_askStep_head (cancelOrder b id).1.sell_levels_ MAX_PRICE_LEVELS
    rw [← hb1] at fb
    rw [← hb2] at fa
    constructor
    · rcases fb with h0 | ⟨i, -, o, t, hh, hp⟩
      · exact Or.inl h0
      · right
        rw [levels_true, ← hp]
        have hslot := ((hc' true i).2 o (by rw [levels_true, hh]; simp)).1
        rw [hslot, hh]
        exact List.cons_ne_nil _ _
    · rcases fa with h0 | ⟨i, -, o, t, hh, hp⟩
      · exact Or.inl h0
      · right
        rw [levels_false, ← hp]
        have hslot := ((hc' false i).2 o (by rw [levels_false, hh]; simp)).1
        rw [hslot, hh]
        exact List.cons_ne_nil _ _

theorem bestSlotsLive_foldl (ops : List Op) (b : LockFreeOrderBook) (hc : Consistent b)
    (h : BestSlotsLive b) : BestSlotsLive (ops.foldl step b) := by
  induction ops generalizing b with
  | nil => exact h
  | cons op t ih =>
    refine ih (step b op) (consistent_step b op hc) ?_
    cases op with
    | add id price quantity is_buy => exact bestSlotsLive_addOrder b id price quantity is_buy h
    | cancel id => exact bestSlotsLive_cancelOrder b id hc h
    | modify id q => exact bestSlotsLive_modifyOrder b id q h

theorem bestSlotsLive_run (ops : List Op) : BestSlotsLive (run ops) :=
  bestSlotsLive_foldl ops _ consistent_fresh bestSlotsLive_fresh

theorem consistent_total_pos (b : LockFreeOrderBook) (hc : Consistent b) (hs : SumsInRange b)
    (is_buy : Bool) (p : Int)
    (hne : (b.levels is_buy (getPriceLevelIndex p)).head ≠ []) :
    0 < getQuantityAtPrice b p is_buy := by
  unfold getQuantityAtPrice
  obtain ⟨h1, h2⟩ := hc is_buy (getPriceLevelIndex p)
  have hpos := sumQuantities_pos _ (fun o ho => (h2 o ho).2.2) hne
  have hle := hs is_buy _ (getPriceLevelIndex_lt p)
  rw [h1, wrap64_of_inRange _ (by unfold INT64_MIN; omega) hle]
  exact hpos

theorem sumsInRange_foldl (ops : List Op) (b : LockFreeOrderBook) (h : SumsInRange b)
    (ht : TraceInRange b ops) : SumsInRange (ops.foldl step b) := by
  induction ops generalizing b with
  | nil => exact h
  | cons op t ih =>
    obtain ⟨-, hs, ht'⟩ := ht
    exact ih (step b op) hs ht'

/-! ## Call sequences within a quantity budget -/

theorem amount_nonneg (op : Op) : 0 ≤ op.amount := by
  cases op <;> simp only [Op.amount] <;> (try split) <;> omega

theorem amounts_sum_nonneg (ops : List Op) : 0 ≤ (ops.map Op.amount).sum := by
  induction ops with
  | nil => simp
  | cons op t ih =>
    have := amount_nonneg op
    simp only [List.map_cons, List.sum_cons]
    omega

theorem sumsBounded_fresh : SumsBounded LockFreeOrderBook.fresh 0 := by
  intro s i
  cases s <;> simp [LockFreeOrderBook.levels, LockFreeOrderBook.fresh, sumQuantities]

theorem sumsBounded_of_setLevel (b b' : LockFreeOrderBook) (is_buy : Bool) (i : Nat)
    (l : PriceLevel) (B B' : Int) (hB : B ≤ B') (h : SumsBounded b B)
    (hs : b'.levels is_buy = setLevel (b.levels is_buy) i l)
    (ho : b'.levels (!is_buy) = b.levels (!is_buy))
    (hl : sumQuantities l.head ≤ B') : SumsBounded b' B' := by
  intro s j
  by_cases hsb : s = is_buy
  · subst hsb
    rw [hs]
    by_cases hji : j = i
    · subst hji
      rw [setLevel_same]
      exact hl
    · rw [setLevel_other _ _ _ _ hji]
      exact Int.le_trans (h s j) hB
  · have hs' : s = !is_buy := by cases s <;> cases is_buy <;> simp_all
    subst hs'
    rw [ho]
    exact Int.le_trans (h _ j) hB

theorem sumsBounded_step (b : LockFreeOrderBook) (op : Op) (B : Int) (hc : Consistent b)
    (h : SumsBounded b B) : SumsBounded (step b op) (B + op.amount) := by
  have hmono : ∀ b' : LockFreeOrderBook, b' = b → SumsBounded b' (B + op.amount) := by
    intro b' hb' s j
    have := h s j
    have := amount_nonneg op
    rw [hb']
    omega
  cases op with
  | add id price quantity is_buy =>
    by_cases hq : quantity ≤ 0
    · exact hmono _ (by simp [step, addOrder_rejects b id price quantity is_buy hq])
    have hq' : 0 < quantity := by omega
    refine sumsBounded_of_setLevel b _ is_buy (getPriceLevelIndex price) _ B _ ?_ h
      (addOrder_levels_same b id price quantity is_buy hq')
      (addOrder_levels_other b id price quantity is_buy) ?_
    · simp only [Op.amount, if_pos hq']
      omega
    · show sumQuantities (_ :: _) ≤ _
      rw [sumQuantities_cons]
      have := h is_buy (getPriceLevelIndex price)
      simp only [Op.amount, if_pos hq']
      show quantity + _ ≤ _
      omega
  | cancel id =>
    cases hm : (cancelOrder b id).2 with
    | false => exact hmono _ (by simp [step, cancelOrder_of_snd_false b id hm])
    | true =>
      obtain ⟨s, i, f, r, -, hu, hl, ho⟩ := cancelOrder_true_spec b id hm
      obtain ⟨l1, l2, e1, e2, -, -⟩ := unlink_some_spec _ _ _ _ hu
      refine sumsBounded_of_setLevel b _ s i _ B _ ?_ h hl ho ?_
      · simp [Op.amount]
      · have h1 := h s i
        have hf : 0 < f.quantity := ((hc s i).2 f (by rw [e1]; simp)).2.2
        rw [e1, sumQuantities_append, sumQuantities_cons] at h1
        show sumQuantities r ≤ _
        rw [e2, sumQuantities_append]
        simp only [Op.amount]
        omega
  | modify id q =>
    cases hm : (modifyOrder b id q).2 with
    | false => exact hmono _ (by simp [step, modifyOrder_of_snd_false b id q hm])
    | true =>
      have hq := modifyOrder_true_pos b id q hm
      obtain ⟨s, i, old, r, -, hu, hl, ho⟩ := modifyOrder_true_spec b id q hm
      obtain ⟨l1, f, l2, e1, e2, -, -, -⟩ := setQuantity_some_spec _ _ _ _ _ hu
      refine sumsBounded_of_setLevel b _ s i _ B _ ?_ h hl ho ?_
      · simp only [Op.amount, if_pos hq]
        omega
      · have h1 := h s i
        have hf : 0 < f.quantity := ((hc s i).2 f (by rw [e1]; simp)).2.2
        rw [e1, sumQuantities_append, sumQuantities_cons] at h1
        show sumQuantities r ≤ _
        rw [e2, sumQuantities_append, sumQuantities_cons]
        simp only [Op.amount, if_pos hq]
        show _ + (q + _) ≤ _
        omega

theorem traceInRange_of_amounts (ops : List Op) (b : LockFreeOrderBook) (B : Int)
    (hc : Consistent b) (h : SumsBounded b B) (hd : ∀ op ∈ ops, op.InDomain)
    (hB : B + (ops.map Op.amount).sum ≤ INT64_MAX) : TraceInRange b ops := by
  induction ops generalizing b B with
  | nil => trivial
  | cons op t ih =>
    have hstep := sumsBounded_step b op B hc h
    have hnn := amounts_sum_nonneg t
    simp only [List.map_cons, List.sum_cons] at hB
    refine ⟨hd op (List.mem_cons_self _ _), ?_, ?_⟩
    · intro s i _
      have := hstep s i
      omega
    · exact ih (step b op) (B + op.amount) (consistent_step b op hc) hstep
        (fun o ho => hd o (List.mem_cons_of_mem _ ho)) (by omega)

theorem traceInRange_scenarioA :
    TraceInRange LockFreeOrderBook.fresh
      [.add 1 100 10 true, .add 2 101 20 true, .add 3 102 15 false, .add 4 103 25 false] := by
  refine traceInRange_of_amounts _ _ 0 consistent_fresh sumsBounded_fresh ?_ (by decide)
  intro op hop
  simp only [List.mem_cons, List.mem_singleton, List.not_mem_nil, or_false] at hop
  rcases hop with rfl | rfl | rfl | rfl <;> exact ⟨by decide, by decide⟩

theorem traceInRange_scenarioB :
    TraceInRange LockFreeOrderBook.fresh
      [.add 1 100 10 true, .add 2 101 20 true, .add 3 102 15 false, .add 4 103 25 false,
        .modify 2 30] := by
  refine traceInRange_of_amounts _ _ 0 consistent_fresh sumsBounded_fresh ?_ (by decide)
  intro op hop
  simp only [List.mem_cons, List.mem_singleton, List.not_mem_nil, or_false] at hop
  rcases hop with rfl | rfl | rfl | rfl | rfl
  · exact ⟨by decide, by decide⟩
  · exact ⟨by decide, by decide⟩
  · exact ⟨by decide, by decide⟩
  · exact ⟨by decide, by decide⟩
  · trivial

/-! ## Best prices after `cancelOrder` -/

theorem isBestBid_unique (l : List Order) (x y : Int) (hx : IsBestBid l x)
    (hy : IsBestBid l y) : x = y := by
  by_cases hl : l = []
  · rw [hx.2.1 hl, hy.2.1 hl]
  · obtain ⟨o1, h1, e1⟩ := hx.2.2 hl
    obtain ⟨o2, h2, e2⟩ := hy.2.2 hl
    have := hx.1 o2 h2
    have := hy.1 o1 h1
    omega

theorem isBestAsk_unique (l : List Order) (x y : Int) (hx : IsBestAsk l x)
    (hy : IsBestAsk l y) : x = y := by
  by_cases hl : l = []
  · rw [hx.2.1 hl, hy.2.1 hl]
  · obtain ⟨o1, h1, e1⟩ := hx.2.2 hl
    obtain ⟨o2, h2, e2⟩ := hy.2.2 hl
    have := hx.1 o2 h2
    have := hy.1 o1 h1
    omega

theorem liveOrders_cancelOrder (b : LockFreeOrderBook) (id : Nat)
    (hm : (cancelOrder b id).2 = true) :
    ∃ is_buy found, found.id = id ∧
      (liveOrders b is_buy).Perm (found :: liveOrders (cancelOrder b id).1 is_buy) ∧
      liveOrders (cancelOrder b id).1 (!is_buy) = liveOrders b (!is_buy) := by
  obtain ⟨s, i, f, r, hi, hu, hl, ho⟩ := cancelOrder_true_spec b id hm
  obtain ⟨l1, l2, e1, e2, hfid, -⟩ := unlink_some_spec _ _ _ _ hu
  refine ⟨s, f, hfid, ?_, ?_⟩
  · unfold liveOrders
    rw [hl]
    refine (slotOrders_perm _ i hi).trans ?_
    refine List.Perm.trans ?_ (List.Perm.cons f (slotOrders_setLevel_perm _ i _ hi).symm)
    rw [e1]
    show (l1 ++ f :: l2 ++ _).Perm (f :: (r ++ _))
    rw [e2]
    exact (List.perm_middle.append_right _)
  · unfold liveOrders
    rw [ho]

theorem isBestBid_remove (l l' : List Order) (found : Order) (best : Int)
    (hperm : l.Perm (found :: l')) (hne : found.price ≠ best) (h : IsBestBid l best) :
    IsBestBid l' best := by
  obtain ⟨h1, -, h3⟩ := h
  have hfound : found ∈ l := hperm.mem_iff.mpr (List.mem_cons_self _ _)
  obtain ⟨o, ho, hp⟩ := h3 (List.ne_nil_of_mem hfound)
  have ho' : o ∈ l' := by
    rcases List.mem_cons.mp (hperm.mem_iff.mp ho) with e | e
    · rw [e] at hp
      exact absurd hp hne
    · exact e
  refine ⟨fun x hx => h1 x (hperm.mem_iff.mpr (List.mem_cons_of_mem _ hx)), ?_, ?_⟩
  · intro hnil
    rw [hnil] at ho'
    cases ho'
  · intro _
    exact ⟨o, ho', hp⟩

theorem isBestAsk_remove (l l' : List Order) (found : Order) (best : Int)
    (hperm : l.Perm (found :: l')) (hne : found.price ≠ best) (h : IsBestAsk l best) :
    IsBestAsk l' best := by
  obtain ⟨h1, -, h3⟩ := h
  have hfound : found ∈ l := hperm.mem_iff.mpr (List.mem_cons_self _ _)
  obtain ⟨o, ho, hp⟩ := h3 (List.ne_nil_of_mem hfound)
  have ho' : o ∈ l' := by
    rcases List.mem_cons.mp (hperm.mem_iff.mp ho) with e | e
    · rw [e] at hp
      exact absurd hp hne
    · exact e
  refine ⟨fun x hx => h1 x (hperm.mem_iff.mpr (List.mem_cons_of_mem _ hx)), ?_, ?_⟩
  · intro hnil
    rw [hnil] at ho'
    cases ho'
  · intro _
    exact ⟨o, ho', hp⟩

/-! ## Claim on the best prices after `addOrder` -/

/-- C12: when `addOrder` returns `true`, a buy order leaves `getBestBid()` at
the maximum of its old value and the price and `getBestAsk()` unchanged, a
sell order leaves `getBestAsk()` at the minimum of its old value and the price
and `getBestBid()` unchanged; so the best bid is never lowered and the best
ask never raised. -/
theorem addOrder_updates_best (b : LockFreeOrderBook) (id : Nat) (price quantity : Int)
    (is_buy : Bool) (h : (addOrder b id price quantity is_buy).2 = true) :
    (is_buy = true →
      getBestBid (addOrder b id price quantity is_buy).1 = max (getBestBid b) price ∧
      getBestAsk (addOrder b id price quantity is_buy).1 = getBestAsk b) ∧
    (is_buy = false →
      getBestAsk (addOrder b id price quantity is_buy).1 = min (getBestAsk b) price ∧
      getBestBid (addOrder b id price quantity is_buy).1 = getBestBid b) ∧
    getBestBid b ≤ getBestBid (addOrder b id price quantity is_buy).1 ∧
    getBestAsk (addOrder b id price quantity is_buy).1 ≤ getBestAsk b := by
  have hq : 0 < quantity := by
    by_contra hq
    rw [addOrder_rejects b id price quantity is_buy (by omega)] at h
    cases h
  obtain ⟨h1, h2⟩ := addOrder_best b id price quantity is_buy hq
  unfold getBestBid getBestAsk
  cases is_buy with
  | true =>
    have hb : (addOrder b id price quantity true).1.best_bid_ =
        if price > b.best_bid_ then price else b.best_bid_ := by simpa using h1
    have ha : (addOrder b id price quantity true).1.best_ask_ = b.best_ask_ := by
      simpa using h2
    rw [hb, ha]
    refine ⟨fun _ => ⟨?_, rfl⟩, fun hf => absurd hf (by decide), ?_, Int.le_refl _⟩
    · split <;> omega
    · split <;> omega
  | false =>
    have hb : (addOrder b id price quantity false).1.best_bid_ = b.best_bid_ := by
      simpa using h1
    have ha : (addOrder b id price quantity false).1.best_ask_ =
        if price < b.best_ask_ then price else b.best_ask_ := by simpa using h2
    rw [hb, ha]
    refine ⟨fun hf => absurd hf (by decide), fun _ => ⟨?_, rfl⟩, Int.le_refl _, ?_⟩
    · split <;> omega
    · split <;> omega

/-- C12 on Scenario A: the second order raises the best bid from `100` to
`max 100 101`, and the scenario ends with best bid `101` and best ask `102`. -/
theorem addOrder_updates_best_witness :
    getBestBid (addOrder (run [.add 1 100 10 true]) 2 101 20 true).1 = max 100 101 ∧
    getBestBid scenarioA = 101 ∧ getBestAsk scenarioA = 102 :=
  ⟨((addOrder_updates_best (run [.add 1 100 10 true]) 2 101 20 true (by decide)).1 rfl).1,
    by decide, by decide⟩

/-! ## Claim on the injectivity of the indexer -/

/-- C14 fails: the bounds `-1 <= 1615` span fewer than `MAX_PRICE_LEVELS`
ticks, yet the distinct prices `-1` and `1615` have the same slot `1615`,
because `-1` is reduced as the unsigned value `2 ^ 64 - 1`. -/
theorem getPriceLevelIndex_collision :
    (-1 : Int) ≤ 1615 ∧ (1615 : Int) - (-1) < MAX_PRICE_LEVELS ∧ (-1 : Int) ≠ 1615 ∧
    getPriceLevelIndex (-1) = 1615 ∧ getPriceLevelIndex 1615 = 1615 := by
  decide

/-- C14 as amended: over bounds `minPrice <= maxPrice` of representable
prices with `maxPrice - minPrice < MAX_PRICE_LEVELS` that do not contain both
a negative and a non-negative price, two distinct prices in
`[minPrice, maxPrice]` have distinct slots. -/
theorem getPriceLevelIndex_injective_on_range (minPrice maxPrice p q : Int)
    (hsign : 0 ≤ minPrice ∨ maxPrice < 0)
    (hmin : INT64_MIN ≤ minPrice) (hmax : maxPrice ≤ INT64_MAX)
    (hwidth : maxPrice - minPrice < MAX_PRICE_LEVELS)
    (hp0 : minPrice ≤ p) (hp1 : p ≤ maxPrice) (hq0 : minPrice ≤ q) (hq1 : q ≤ maxPrice)
    (hne : p ≠ q) : getPriceLevelIndex p ≠ getPriceLevelIndex q := by
  unfold getPriceLevelIndex TWO64
  unfold MAX_PRICE_LEVELS at *
  unfold INT64_MIN at hmin
  unfold INT64_MAX at hmax
  rcases hsign with h0 | h0
  · have hp : p % 18446744073709551616 = p := by omega
    have hq : q % 18446744073709551616 = q := by omega
    rw [hp, hq]
    omega
  · have hp : p % 18446744073709551616 = p + 18446744073709551616 := by omega
    have hq : q % 18446744073709551616 = q + 18446744073709551616 := by omega
    rw [hp, hq]
    omega

/-- C14 as amended, on the bounds `0 <= 9999` and on the bounds
`-9999 <= -1`. -/
theorem getPriceLevelIndex_injective_on_range_witness :
    getPriceLevelIndex 100 ≠ getPriceLevelIndex 101 ∧
    getPriceLevelIndex (-1) ≠ getPriceLevelIndex (-9999) :=
  ⟨getPriceLevelIndex_injective_on_range 0 9999 100 101 (Or.inl (by decide)) (by decide)
      (by decide) (by decide) (by decide) (by decide) (by decide) (by decide) (by decide),
    getPriceLevelIndex_injective_on_range (-9999) (-1) (-1) (-9999) (Or.inr (by decide))
      (by decide) (by decide) (by decide) (by decide) (by decide) (by decide) (by decide)
      (by decide)⟩

/-! ## Claim on what `modifyOrder` leaves alone -/

/-- C15: `modifyOrder(id, new_quantity)` leaves both best prices unchanged,
and either leaves the whole book unchanged or overwrites the quantity of one
order carrying `id` in one list, in place: that list keeps its orders and
their order, every other slot of that side keeps its list and its aggregate,
and the other side is untouched. -/
theorem modifyOrder_frame (b : LockFreeOrderBook) (id : Nat) (new_quantity : Int) :
    getBestBid (modifyOrder b id new_quantity).1 = getBestBid b ∧
    getBestAsk (modifyOrder b id new_quantity).1 = getBestAsk b ∧
    ((modifyOrder b id new_quantity).1 = b ∨
      ∃ is_buy i l1 f l2, i < MAX_PRICE_LEVELS ∧ f.id = id ∧
        (b.levels is_buy i).head = l1 ++ f :: l2 ∧
        ((modifyOrder b id new_quantity).1.levels is_buy i).head =
          l1 ++ { f with quantity := new_quantity } :: l2 ∧
        (∀ j, j ≠ i → (modifyOrder b id new_quantity).1.levels is_buy j = b.levels is_buy j) ∧
        (modifyOrder b id new_quantity).1.levels (!is_buy) = b.levels (!is_buy)) := by
  obtain ⟨h1, h2⟩ := modifyOrder_best b id new_quantity
  refine ⟨h1, h2, ?_⟩
  cases hm : (modifyOrder b id new_quantity).2 with
  | false =>
    left
    rw [modifyOrder_of_snd_false b id new_quantity hm]
  | true =>
    right
    obtain ⟨s, i, old, r, hi, hu, hl, ho⟩ := modifyOrder_true_spec b id new_quantity hm
    obtain ⟨l1, f, l2, e1, e2, hfid, -, -⟩ := setQuantity_some_spec _ _ _ _ _ hu
    refine ⟨s, i, l1, f, l2, hi, hfid, e1, ?_, ?_, ho⟩
    · rw [hl, setLevel_same]
      exact e2
    · intro j hj
      rw [hl, setLevel_other _ _ _ _ hj]

/-- C15 on Scenario B: `modifyOrder(2, 30)` on Scenario A keeps the best bid
at `101` and the best ask at `102`, and leaves the level of order `1`
untouched. -/
theorem modifyOrder_frame_witness :
    getBestBid scenarioA = 101 ∧ getBestBid scenarioB = 101 ∧ getBestAsk scenarioB = 102 ∧
    scenarioB.levels true 100 = scenarioA.levels true 100 :=
  have h := modifyOrder_frame scenarioA 2 30
  ⟨by decide, h.1.trans (by decide), h.2.1.trans (by decide), by decide!⟩

/-! ## Claim on the level of a best price -/

/-- C13 fails: after four `addOrder` calls with quantity `2 ^ 62` at the buy
price `100`, `getBestBid()` is `100`, not the sentinel, while
`getQuantityAtPrice(100, buy)` has wrapped around to `0`. -/
theorem best_bid_level_wraps_to_zero :
    getBestBid overflowBook = 100 ∧ getBestBid overflowBook ≠ INT64_MIN ∧
    getQuantityAtPrice overflowBook (getBestBid overflowBook) true = 0 := by
  decide

/-- C13 as amended: in every state reached from a fresh book by a sequence
of calls, each best price is its empty sentinel or shares its slot with a live
order of its side; and when every slot's quantity sum fits in `int64_t` in
that state, `getBestBid()` is the sentinel or a price `b` with
`getQuantityAtPrice(b, buy) > 0`, and likewise `getBestAsk()` on the sell
side. -/
theorem best_price_level_not_empty (ops : List Op) (hsum : SumsInRange (run ops)) :
    (getBestBid (run ops) = INT64_MIN ∨
      0 < getQuantityAtPrice (run ops) (getBestBid (run ops)) true) ∧
    (getBestAsk (run ops) = INT64_MAX ∨
      0 < getQuantityAtPrice (run ops) (getBestAsk (run ops)) false) ∧
    (getBestBid (run ops) = INT64_MIN ∨ ∃ o ∈ liveOrders (run ops) true,
      getPriceLevelIndex o.price = getPriceLevelIndex (getBestBid (run ops))) ∧
    (getBestAsk (run ops) = INT64_MAX ∨ ∃ o ∈ liveOrders (run ops) false,
      getPriceLevelIndex o.price = getPriceLevelIndex (getBestAsk (run ops))) := by
  have hc := consistent_run ops
  obtain ⟨hb, ha⟩ := bestSlotsLive_run ops
  unfold getBestBid getBestAsk
  refine ⟨?_, ?_, ?_, ?_⟩
  · rcases hb with h | h
    · exact Or.inl h
    · exact Or.inr (consistent_total_pos _ hc hsum true _ h)
  · rcases ha with h | h
    · exact Or.inl h
    · exact Or.inr (consistent_total_pos _ hc hsum false _ h)
  · rcases hb with h | h
    · exact Or.inl h
    · obtain ⟨o, ho⟩ := List.exists_mem_of_ne_nil _ h
      exact Or.inr ⟨o, (mem_liveOrders _ _ _).mpr ⟨_, getPriceLevelIndex_lt _, ho⟩,
        ((hc true _).2 o ho).1⟩
  · rcases ha with h | h
    · exact Or.inl h
    · obtain ⟨o, ho⟩ := List.exists_mem_of_ne_nil _ h
      exact Or.inr ⟨o, (mem_liveOrders _ _ _).mpr ⟨_, getPriceLevelIndex_lt _, ho⟩,
        ((hc false _).2 o ho).1⟩

/-- C13 as amended, on Scenario A followed by the cancel of order `2`: the
best bid `100` and the best ask `102` have the positive aggregates `10` and
`15`. -/
theorem best_price_level_not_empty_witness :
    (getBestBid scenarioD = INT64_MIN ∨
      0 < getQuantityAtPrice scenarioD (getBestBid scenarioD) true) ∧
    (getBestAsk scenarioD = INT64_MAX ∨
      0 < getQuantityAtPrice scenarioD (getBestAsk scenarioD) false) ∧
    getQuantityAtPrice scenarioD 100 true = 10 ∧ getQuantityAtPrice scenarioD 102 false = 15 :=
  have h := best_price_level_not_empty _
    (sumsInRange_foldl _ _ sumsInRange_fresh traceInRange_scenarioD)
  ⟨h.1, h.2.1, by decide!, by decide!⟩

/-! ## Claim on the best prices after `cancelOrder` -/

/-- C11: on a book reached from a fresh one by calls whose order prices lie
in `0 .. MAX_PRICE_LEVELS - 1` and after each of which every slot's quantity
sum fits in `int64_t`, a `cancelOrder(id)` that returns `true` leaves
`getBestBid()` at the highest price among the buy orders still live, or at
`INT64_MIN` if none remains, and `getBestAsk()` at the lowest price among
the sell orders still live, or at `INT64_MAX`.  Hence, when no live buy
order carrying `id` is at the best bid, the best bid is unchanged, and
likewise for the best ask. -/
theorem cancelOrder_recomputes_best (ops : List Op) (id : Nat)
    (h : TraceInRange LockFreeOrderBook.fresh ops)
    (hm : (cancelOrder (run ops) id).2 = true) :
    IsBestBid (liveOrders (cancelOrder (run ops) id).1 true)
      (getBestBid (cancelOrder (run ops) id).1) ∧
    IsBestAsk (liveOrders (cancelOrder (run ops) id).1 false)
      (getBestAsk (cancelOrder (run ops) id).1) ∧
    ((∀ o ∈ liveOrders (run ops) true, o.id = id → o.price ≠ getBestBid (run ops)) →
      getBestBid (cancelOrder (run ops) id).1 = getBestBid (run ops)) ∧
    ((∀ o ∈ liveOrders (run ops) false, o.id = id → o.price ≠ getBestAsk (run ops)) →
      getBestAsk (cancelOrder (run ops) id).1 = getBestAsk (run ops)) := by
  have wf : WellFormed (run ops) := wellFormed_foldl ops _ wellFormed_fresh h
  have hs : SumsInRange (run ops) := sumsInRange_foldl ops _ sumsInRange_fresh h
  have hs' := sumsInRange_cancelOrder (run ops) id wf.1 hs
  have wf' := wellFormed_cancelOrder (run ops) id wf hs'
  obtain ⟨s, found, hfid, hperm, hother⟩ := liveOrders_cancelOrder (run ops) id hm
  have hfound : found ∈ liveOrders (run ops) s := hperm.mem_iff.mpr (List.mem_cons_self _ _)
  refine ⟨wf'.2.2.1, wf'.2.2.2, ?_, ?_⟩
  · intro hne
    apply isBestBid_unique _ _ _ wf'.2.2.1
    cases s with
    | true => exact isBestBid_remove _ _ found _ hperm (hne found hfound hfid) wf.2.2.1
    | false =>
      have e : liveOrders (cancelOrder (run ops) id).1 true = liveOrders (run ops) true :=
        hother
      rw [e]
      exact wf.2.2.1
  · intro hne
    apply isBestAsk_unique _ _ _ wf'.2.2.2
    cases s with
    | false => exact isBestAsk_remove _ _ found _ hperm (hne found hfound hfid) wf.2.2.2
    | true =>
      have e : liveOrders (cancelOrder (run ops) id).1 false = liveOrders (run ops) false :=
        hother
      rw [e]
      exact wf.2.2.2

/-- C11 on Scenarios C and D: cancelling order `1` (at `100`) on Scenario B
keeps the best bid at `101` and empties the level at `100`; cancelling order
`2`, the only order at the best bid `101` of Scenario A, moves the best bid to
`100`. -/
theorem cancelOrder_recomputes_best_witness :
    IsBestBid (liveOrders (cancelOrder scenarioB 1).1 true)
      (getBestBid (cancelOrder scenarioB 1).1) ∧
    getBestBid scenarioB = 101 ∧ getBestBid (cancelOrder scenarioB 1).1 = 101 ∧
    getQuantityAtPrice (cancelOrder scenarioB 1).1 100 true = 0 ∧
    IsBestBid (liveOrders (cancelOrder scenarioA 2).1 true)
      (getBestBid (cancelOrder scenarioA 2).1) ∧
    getBestBid scenarioA = 101 ∧ getBestBid (cancelOrder scenarioA 2).1 = 100 :=
  have hC := cancelOrder_recomputes_best _ 1 traceInRange_scenarioB (by decide!)
  have hD := cancelOrder_recomputes_best _ 2 traceInRange_scenarioA (by decide!)
  ⟨hC.1, by decide!, by decide!, by decide!, hD.1, by decide, by decide!⟩

/-! ## Claim on adding and cancelling an order -/

theorem bool_eq_not_of_ne (s t : Bool) (h : ¬ s = t) : s = !t := by
  cases s <;> cases t <;> first | rfl | exact absurd rfl h

theorem wrap64_idem (x : Int) : wrap64 (wrap64 x) = wrap64 x := by
  unfold wrap64 TWO64
  omega

theorem book_ext (x y : LockFreeOrderBook) (h1 : x.buy_levels_ = y.buy_levels_)
    (h2 : x.sell_levels_ = y.sell_levels_) (h3 : x.best_bid_ = y.best_bid_)
    (h4 : x.best_ask_ = y.best_ask_) : x = y := by
  cases x
  cases y
  simp only [LockFreeOrderBook.mk.injEq]
  exact ⟨h1, h2, h3, h4⟩

theorem add_then_cancel_levels (b : LockFreeOrderBook) (hc : Consistent b) (id : Nat)
    (price quantity : Int) (is_buy : Bool) (hnew : ∀ o ∈ allLive b, o.id ≠ id)
    (hq : 0 < quantity) :
    (cancelOrder (addOrder b id price quantity is_buy).1 id).2 = true ∧
    ∀ s, (cancelOrder (addOrder b id price quantity is_buy).1 id).1.levels s = b.levels s := by
  have hm : (cancelOrder (addOrder b id price quantity is_buy).1 id).2 = true := by
    cases hcm : (cancelOrder (addOrder b id price quantity is_buy).1 id).2 with
    | true => rfl
    | false =>
      exact absurd rfl ((cancelOrder_snd_false_iff _ id).mp hcm _
        (addOrder_new_order_live b id price quantity is_buy hq))
  refine ⟨hm, ?_⟩
  obtain ⟨s', i, found, rest, hi, hu, hl, ho⟩ := cancelOrder_true_spec _ id hm
  obtain ⟨l1, l2, e1, e2, hfid, hl1⟩ := unlink_some_spec _ _ _ _ hu
  have hsame := addOrder_levels_same b id price quantity is_buy hq
  have hoth := addOrder_levels_other b id price quantity is_buy
  have hloc : s' = is_buy ∧ i = getPriceLevelIndex price := by
    by_contra hne
    have hold : found ∈ (b.levels s' i).head := by
      have hmem : found ∈ ((addOrder b id price quantity is_buy).1.levels s' i).head := by
        rw [e1]
        simp
      by_cases hs : s' = is_buy
      · subst hs
        have hi' : i ≠ getPriceLevelIndex price := fun e => hne ⟨rfl, e⟩
        rwa [hsame, pushOrder, setLevel_other _ _ _ _ hi'] at hmem
      · have hs'' : s' = !is_buy := bool_eq_not_of_ne _ _ hs
        rw [hs''] at hmem ⊢
        rwa [hoth] at hmem
    exact hnew found ((mem_allLive b found).mpr ⟨s', i, hi, hold⟩) hfid
  obtain ⟨hs, hik⟩ := hloc
  subst hs hik
  rw [hsame, pushOrder, setLevel_same] at e1
  have hsplit : found = ⟨id, price, quantity, s'⟩ ∧
      rest = (b.levels s' (getPriceLevelIndex price)).head := by
    cases l1 with
    | nil =>
      simp only [List.nil_append, List.cons.injEq] at e1
      rw [e2]
      exact ⟨e1.1.symm, by simpa using e1.2.symm⟩
    | cons c t =>
      simp only [List.cons_append, List.cons.injEq] at e1
      have := hl1 c (List.mem_cons_self _ _)
      rw [← e1.1] at this
      exact absurd rfl this
  obtain ⟨hf, hr⟩ := hsplit
  have htot : wrap64 (((addOrder b id price quantity s').1.levels s'
      (getPriceLevelIndex price)).total_quantity - found.quantity) =
      (b.levels s' (getPriceLevelIndex price)).total_quantity := by
    rw [hsame, pushOrder, setLevel_same, hf]
    show wrap64 (wrap64 (_ + quantity) - quantity) = _
    rw [wrap64_sub_left, (hc s' (getPriceLevelIndex price)).1]
    have e : wrap64 (sumQuantities (b.levels s' (getPriceLevelIndex price)).head) + quantity
        - quantity = wrap64 (sumQuantities (b.levels s' (getPriceLevelIndex price)).head) := by
      omega
    rw [e, wrap64_idem]
  intro s
  by_cases hs : s = s'
  · subst hs
    rw [hl, htot, hr, hsame, pushOrder]
    funext j
    by_cases hj : j = getPriceLevelIndex price
    · subst hj
      rw [setLevel_same]
    · rw [setLevel_other _ _ _ _ hj, setLevel_other _ _ _ _ hj]
  · have hs'' : s = !s' := bool_eq_not_of_ne _ _ hs
    rw [hs'', ho, hoth]

/-- C18: on a book reached from a fresh one by calls whose order prices lie
in `0 .. MAX_PRICE_LEVELS - 1` and after each of which every slot's quantity
sum fits in `int64_t`, for an id carried by no live order, any price (so any
price in `0 .. MAX_PRICE_LEVELS - 1`), any quantity `> 0` and any side,
`addOrder(id, price, quantity, side)` returns `true` and the following
`cancelOrder(id)` returns `true` and yields exactly the book before the two
calls: the same order lists, aggregates, best bid and best ask. -/
theorem add_then_cancel_restores (ops : List Op) (id : Nat) (price quantity : Int)
    (is_buy : Bool) (h : TraceInRange LockFreeOrderBook.fresh ops)
    (hnew : ∀ o ∈ allLive (run ops), o.id ≠ id) (hq : 0 < quantity) :
    (addOrder (run ops) id price quantity is_buy).2 = true ∧
    cancelOrder (addOrder (run ops) id price quantity is_buy).1 id = (run ops, true) := by
  have wf : WellFormed (run ops) := wellFormed_foldl ops _ wellFormed_fresh h
  have hs : SumsInRange (run ops) := sumsInRange_foldl ops _ sumsInRange_fresh h
  obtain ⟨hm, hlev⟩ := add_then_cancel_levels (run ops) wf.1 id price quantity is_buy hnew hq
  refine ⟨addOrder_accepts _ id price quantity is_buy hq, ?_⟩
  have hbuy : (cancelOrder (addOrder (run ops) id price quantity is_buy).1 id).1.buy_levels_ =
      (run ops).buy_levels_ := by
    have := hlev true
    rwa [levels_true, levels_true] at this
  have hsell : (cancelOrder (addOrder (run ops) id price quantity is_buy).1 id).1.sell_levels_ =
      (run ops).sell_levels_ := by
    have := hlev false
    rwa [levels_false, levels_false] at this
  obtain ⟨hb1, hb2⟩ := cancelOrder_true_best _ id hm
  rw [hbuy] at hb1
  rw [hsell] at hb2
  obtain ⟨g1, g2⟩ := isBest_of_levels (run ops) wf.1 wf.2.1 hs
  rw [← hb1] at g1
  rw [← hb2] at g2
  exact Prod.ext
    (book_ext _ _ hbuy hsell (isBestBid_unique _ _ _ g1 wf.2.2.1)
      (isBestAsk_unique _ _ _ g2 wf.2.2.2))
    hm

/-- C18 on Scenario A: adding a buy order `9` at `100` and cancelling it
again gives back Scenario A. -/
theorem add_then_cancel_restores_witness :
    (∀ o ∈ allLive scenarioA, o.id ≠ 9) ∧
    (addOrder scenarioA 9 100 5 true).2 = true ∧
    cancelOrder (addOrder scenarioA 9 100 5 true).1 9 = (scenarioA, true) :=
  have hnew : ∀ o ∈ allLive scenarioA, o.id ≠ 9 :=
    (countId_eq_zero_iff _ _).mp (by rw [countId_scenarioA]; decide)
  have h := add_then_cancel_restores _ 9 100 5 true traceInRange_scenarioA hnew (by decide)
  ⟨hnew, h.1, h.2⟩

/-! ## Claim on what `getQuantityAtPrice` reports for non-negative prices -/

theorem pricesNonneg_of_setLevel (b b' : LockFreeOrderBook) (is_buy : Bool) (i : Nat)
    (l : PriceLevel) (h : PricesNonneg b)
    (hs : b'.levels is_buy = setLevel (b.levels is_buy) i l)
    (ho : b'.levels (!is_buy) = b.levels (!is_buy))
    (hl : ∀ o ∈ l.head, 0 ≤ o.price ∧ o.price ≤ INT64_MAX) : PricesNonneg b' := by
  intro s j
  by_cases hsb : s = is_buy
  · subst hsb
    rw [hs]
    by_cases hj : j = i
    · subst hj
      rw [setLevel_same]
      exact hl
    · rw [setLevel_other _ _ _ _ hj]
      exact h s j
  · have hs' : s = !is_buy := bool_eq_not_of_ne _ _ hsb
    subst hs'
    rw [ho]
    exact h _ j

theorem pricesNonneg_step (b : LockFreeOrderBook) (op : Op) (h : PricesNonneg b)
    (hop : op.PriceNonneg) : PricesNonneg (step b op) := by
  cases op with
  | add id price quantity is_buy =>
    by_cases hq : quantity ≤ 0
    · simp only [step, addOrder_rejects b id price quantity is_buy hq]
      exact h
    have hq' : 0 < quantity := by omega
    refine pricesNonneg_of_setLevel b _ is_buy (getPriceLevelIndex price) _ h
      (addOrder_levels_same b id price quantity is_buy hq')
      (addOrder_levels_other b id price quantity is_buy) ?_
    intro o ho
    rcases List.mem_cons.mp ho with rfl | ho
    · exact hop
    · exact h is_buy _ o ho
  | cancel id =>
    cases hm : (cancelOrder b id).2 with
    | false =>
      simp only [step, cancelOrder_of_snd_false b id hm]
      exact h
    | true =>
      obtain ⟨s, i, f, r, -, hu, hl, ho⟩ := cancelOrder_true_spec b id hm
      obtain ⟨l1, l2, e1, e2, -, -⟩ := unlink_some_spec _ _ _ _ hu
      refine pricesNonneg_of_setLevel b _ s i _ h hl ho ?_
      intro o ho'
      rw [e2] at ho'
      rcases List.mem_append.mp ho' with hm' | hm'
      · exact h s i o (by rw [e1]; exact List.mem_append_left _ hm')
      · exact h s i o (by rw [e1]; exact List.mem_append_right _ (List.mem_cons_of_mem _ hm'))
  | modify id q =>
    cases hm : (modifyOrder b id q).2 with
    | false =>
      simp only [step, modifyOrder_of_snd_false b id q hm]
      exact h
    | true =>
      obtain ⟨s, i, old, r, -, hu, hl, ho⟩ := modifyOrder_true_spec b id q hm
      obtain ⟨l1, f, l2, e1, e2, -, -, -⟩ := setQuantity_some_spec _ _ _ _ _ hu
      refine pricesNonneg_of_setLevel b _ s i _ h hl ho ?_
      intro o ho'
      rw [e2] at ho'
      rcases List.mem_append.mp ho' with hm' | hm'
      · exact h s i o (by rw [e1]; exact List.mem_append_left _ hm')
      · rcases List.mem_cons.mp hm' with rfl | hm'
        · exact h s i f (by rw [e1]; simp)
        · exact h s i o (by rw [e1]; exact List.mem_append_right _ (List.mem_cons_of_mem _ hm'))

theorem pricesNonneg_foldl (ops : List Op) (b : LockFreeOrderBook) (h : PricesNonneg b)
    (hops : ∀ op ∈ ops, op.PriceNonneg) : PricesNonneg (ops.foldl step b) := by
  induction ops generalizing b with
  | nil => exact h
  | cons op t ih =>
    exact ih (step b op) (pricesNonneg_step b op h (hops op (List.mem_cons_self _ _)))
      (fun o ho => hops o (List.mem_cons_of_mem _ ho))

theorem pricesNonneg_fresh : PricesNonneg LockFreeOrderBook.fresh := by
  intro s i o ho
  cases s <;> simp [LockFreeOrderBook.levels, LockFreeOrderBook.fresh] at ho

theorem getPriceLevelIndex_eq_iff_congruent (x p : Int) (hx0 : 0 ≤ x) (hx1 : x ≤ INT64_MAX)
    (hp0 : 0 ≤ p) (hp1 : p ≤ INT64_MAX) :
    getPriceLevelIndex x = getPriceLevelIndex p ↔
      x % (MAX_PRICE_LEVELS : Int) = p % (MAX_PRICE_LEVELS : Int) := by
  unfold getPriceLevelIndex TWO64 MAX_PRICE_LEVELS
  unfold INT64_MAX at hx1 hp1
  have hx : x % 18446744073709551616 = x := by omega
  have hp : p % 18446744073709551616 = p := by omega
  rw [hx, hp]
  omega

theorem liveOrders_oneOrderBook :
    liveOrders oneOrderBook true = [⟨1, 100, 10, true⟩] ∧ liveOrders oneOrderBook false = [] := by
  constructor
  · have h := liveOrders_addOrder_perm LockFreeOrderBook.fresh 1 100 10 true (by decide)
    rw [liveOrders_fresh] at h
    exact List.perm_singleton.mp h
  · have h := liveOrders_addOrder_other LockFreeOrderBook.fresh 1 100 10 true
    rw [liveOrders_fresh] at h
    exact h

/-- C17 fails in its last sentence: with one live buy order, at price `100`
and of quantity `10`, all live prices lie in `0 .. MAX_PRICE_LEVELS - 1`, yet
for the non-negative price `10100` `getQuantityAtPrice(10100, buy)` is `10`
while no live order has exactly that price. -/
theorem getQuantityAtPrice_not_exact_outside_domain :
    liveOrders oneOrderBook true = [⟨1, 100, 10, true⟩] ∧ liveOrders oneOrderBook false = [] ∧
    (0 : Int) ≤ 10100 ∧ getQuantityAtPrice oneOrderBook 10100 true = 10 ∧
    sumQuantities ((liveOrders oneOrderBook true).filter (fun o => decide (o.price = 10100)))
      = 0 := by
  refine ⟨liveOrders_oneOrderBook.1, liveOrders_oneOrderBook.2, by decide, by decide, ?_⟩
  rw [liveOrders_oneOrderBook.1]
  decide

/-- C17 as amended: after every sequence of calls on a fresh book whose
order prices are non-negative `int64_t` values, in a state where every slot's
quantity sum fits in `int64_t`, for every non-negative `int64_t` price `p` and
side, `getQuantityAtPrice(p, side)` is the sum of the quantities of the live
orders of that side whose price is congruent to `p` modulo
`MAX_PRICE_LEVELS`; every live order has a quantity `> 0`, so the aggregate is
`>= 0`; and when `p` and all live prices of that side are below
`MAX_PRICE_LEVELS`, it is the sum over the live orders at exactly price `p`. -/
theorem getQuantityAtPrice_congruent_sum (ops : List Op) (p : Int) (is_buy : Bool)
    (hops : ∀ op ∈ ops, op.PriceNonneg) (hsum : SumsInRange (run ops))
    (hp0 : 0 ≤ p) (hp1 : p ≤ INT64_MAX) :
    getQuantityAtPrice (run ops) p is_buy =
      sumQuantities ((liveOrders (run ops) is_buy).filter
        (fun o => decide (o.price % (MAX_PRICE_LEVELS : Int) = p % (MAX_PRICE_LEVELS : Int)))) ∧
    (∀ o ∈ allLive (run ops), 0 < o.quantity) ∧
    0 ≤ getQuantityAtPrice (run ops) p is_buy ∧
    ((∀ o ∈ liveOrders (run ops) is_buy, o.price < MAX_PRICE_LEVELS) →
      p < MAX_PRICE_LEVELS →
      getQuantityAtPrice (run ops) p is_buy =
        sumQuantities ((liveOrders (run ops) is_buy).filter
          (fun o => decide (o.price = p)))) := by
  have hc := consistent_run ops
  have hn : PricesNonneg (run ops) := pricesNonneg_foldl ops _ pricesNonneg_fresh hops
  have hlive : ∀ o ∈ liveOrders (run ops) is_buy,
      (0 ≤ o.price ∧ o.price ≤ INT64_MAX) ∧ 0 < o.quantity := by
    intro o ho
    obtain ⟨i, -, hi⟩ := (mem_liveOrders _ _ _).mp ho
    exact ⟨hn is_buy i o hi, ((hc is_buy i).2 o hi).2.2⟩
  have hq := consistent_getQuantityAtPrice (run ops) hc p is_buy
  have hslot := consistent_slot_sum (run ops) hc p is_buy
  have hle := hsum is_buy _ (getPriceLevelIndex_lt p)
  rw [← hslot] at hle
  have hnn : 0 ≤ sumQuantities ((liveOrders (run ops) is_buy).filter
      (fun o => decide (getPriceLevelIndex o.price = getPriceLevelIndex p))) := by
    apply sumQuantities_nonneg
    intro o ho
    exact (hlive o (List.mem_filter.mp ho).1).2
  have hexact : getQuantityAtPrice (run ops) p is_buy =
      sumQuantities ((liveOrders (run ops) is_buy).filter
        (fun o => decide (getPriceLevelIndex o.price = getPriceLevelIndex p))) := by
    rw [hq]
    exact wrap64_of_inRange _ (by unfold INT64_MIN; omega) hle
  have hcong : (liveOrders (run ops) is_buy).filter
      (fun o => decide (getPriceLevelIndex o.price = getPriceLevelIndex p)) =
      (liveOrders (run ops) is_buy).filter
        (fun o => decide (o.price % (MAX_PRICE_LEVELS : Int) = p % (MAX_PRICE_LEVELS : Int))) := by
    apply List.filter_congr
    intro o ho
    have hd := (hlive o ho).1
    simp only [getPriceLevelIndex_eq_iff_congruent o.price p hd.1 hd.2 hp0 hp1]
  refine ⟨by rw [hexact, hcong], ?_, by rw [hexact]; exact hnn, ?_⟩
  · intro o ho
    obtain ⟨s, i, -, hi⟩ := (mem_allLive _ _).mp ho
    exact ((hc s i).2 o hi).2.2
  · intro hdom hp2
    rw [hexact]
    refine congrArg sumQuantities ?_
    apply List.filter_congr
    intro o ho
    have hd := (hlive o ho).1
    simp only [getPriceLevelIndex_eq_iff_of_inDomain o.price p hd.1 (hdom o ho) hp0 hp2]

/-- C17 as amended, on the book with buy orders at `100` and at `10100`:
`getQuantityAtPrice(100, buy)` is `30`, the sum over both congruent prices. -/
theorem getQuantityAtPrice_congruent_sum_witness :
    getQuantityAtPrice aliasBook 100 true = 30 ∧
    getQuantityAtPrice aliasBook 100 true =
      sumQuantities ((liveOrders aliasBook true).filter
        (fun o => decide (o.price % (MAX_PRICE_LEVELS : Int) = 100 % (MAX_PRICE_LEVELS : Int)))) :=
  have hops : ∀ op ∈ [Op.add 1 100 10 true, Op.add 2 10100 20 true], op.PriceNonneg := by
    intro op hop
    simp only [List.mem_cons, List.mem_singleton, List.not_mem_nil, or_false] at hop
    rcases hop with rfl | rfl <;> exact ⟨by decide, by decide⟩
  have hsum : SumsInRange (run [Op.add 1 100 10 true, Op.add 2 10100 20 true]) :=
    sumsInRange_addOrder _ 2 10100 20 true
      (sumsInRange_addOrder _ 1 100 10 true sumsInRange_fresh (by decide)) (by decide)
  ⟨by decide,
    (getQuantityAtPrice_congruent_sum _ 100 true hops hsum (by decide) (by decide)).1⟩

end trading
